import Mathlib

/-!
Verification of the creative-automation pipeline core.

This file is a shallow embedding, in Lean 4, of the compliance evaluators,
the adaptive text-fitting algorithm, the generated-image identifier scheme
and the orchestration control flow of the `creative_automation_cli` package,
together with theorems settling the specified properties.

Modelling conventions:
* Python `str` is modelled by `String` / `List Char`.  Case folding and
  whitespace predicates are modelled at ASCII level (`Char.toLower`, the
  ASCII whitespace class); the policies and texts under verification are
  ASCII.
* Python regular-expression matching (`re.search`) is an external engine;
  it is abstracted as a `RegexSem` oracle (validity of a pattern plus a
  case-insensitive search function).  All theorems quantify over the oracle.
* PIL image rendering (font metrics, pixel sampling) is abstracted as
  oracles as well: a `FontMetrics` record for `draw.textbbox` widths and
  line heights, and a coverage oracle for `_palette_coverage`.
* Python `dict` objects holding policy overrides are modelled as
  association lists with first-match lookup (dict keys are unique).
-/

/-! ### Python string primitives -/

/-- ASCII whitespace class of Python's `\s` / `str.split` / `str.strip`. -/
def isPySpaceB (c : Char) : Bool :=
  c = ' ' || c = '\t' || c = '\n' || c = '\r' || c = '\x0b' || c = '\x0c'

/-- Python `str.lower` (ASCII fragment). -/
def pyLower (s : String) : String :=
  String.mk (s.data.map Char.toLower)

/-- Python substring test `needle in hay` on character lists. -/
def containsSub (hay needle : List Char) : Bool :=
  needle.isPrefixOf hay ||
    match hay with
    | [] => false
    | _ :: t => containsSub t needle

/-- Python `str.strip` on a character list: drop ASCII whitespace at both ends. -/
def pyStripList (l : List Char) : List Char :=
  ((l.dropWhile isPySpaceB).reverse.dropWhile isPySpaceB).reverse

/-- Python `str.strip` on strings. -/
def pyStrip (s : String) : String :=
  String.mk (pyStripList s.data)

/-- Helper of `pySplit`: `acc` holds the reversed characters of the word
being accumulated. -/
def pySplitAux : List Char → List Char → List String
  | [], acc => if acc.isEmpty then [] else [String.mk acc.reverse]
  | c :: cs, acc =>
    if isPySpaceB c then
      if acc.isEmpty then pySplitAux cs [] else String.mk acc.reverse :: pySplitAux cs []
    else
      pySplitAux cs (c :: acc)

/-- Python `str.split()` with no separator: split on whitespace runs,
producing no empty words. -/
def pySplit (s : String) : List String :=
  pySplitAux s.data []

/-- Python `" ".join(words)`. -/
def joinSpace : List String → String
  | [] => ""
  | [w] => w
  | w :: ws => w ++ " " ++ joinSpace ws

/-! ### Legal policy model (`compliance/legal_policy.py`) -/

/-- `LegalChecksPolicy`: global or per-locale blocked keyword/regex lists. -/
structure LegalChecksPolicy where
  blocked_keywords : List String
  blocked_regex : List String
deriving DecidableEq, Repr

/-- `LegalPolicy`: global checks, locale overrides (a dict, modelled as an
association list with unique keys), and a default action of "warn" or
"block". -/
structure LegalPolicy where
  default_action : String
  checks : LegalChecksPolicy
  locale_overrides : List (String × LegalChecksPolicy)
deriving DecidableEq, Repr

/-- Abstract semantics of Python's `re` engine: `valid p` is true when
`re.compile(p)` succeeds, `search p t` is the result of the
case-insensitive `re.search(p, t, flags=re.IGNORECASE)`. -/
structure RegexSem where
  valid : String → Bool
  search : String → String → Bool

/-- A regex oracle with no valid-pattern hits; used to instantiate theorems
on concrete policies whose `blocked_regex` lists are empty. -/
def trivialRegexSem : RegexSem :=
  { valid := fun _ => true, search := fun _ _ => false }

/-! ### Legal evaluator (`compliance/legal.py`) -/

/-- `LegalCheckResult` of `evaluate_legal_text`. -/
structure LegalCheckResult where
  passed : Bool
  action : String
  flagged : Bool
  should_block : Bool
  hits : List String
  warnings : List String
  violations : List String
deriving DecidableEq, Repr

/-- Locale-key normalization of `_checks_for_locale`:
`locale.lower().replace("-", "_")`. -/
def normalizeLocaleKey (locale : String) : String :=
  String.mk ((pyLower locale).data.map fun c => if c = '-' then '_' else c)

/-- Primary subtag `normalized.split("_", 1)[0]`. -/
def primarySubtag (s : String) : String :=
  String.mk (s.data.takeWhile (fun c => c ≠ '_'))

/-- `_checks_for_locale`: effective rule set for a locale — the global
lists, extended by the exact locale override if present, else by the
primary-subtag override when the key has an underscore. -/
def checks_for_locale (policy : LegalPolicy) (locale : String) : LegalChecksPolicy :=
  let normalized := normalizeLocaleKey locale
  let override :=
    match List.lookup normalized policy.locale_overrides with
    | some o => some o
    | none =>
      if normalized.data.contains '_' then
        List.lookup (primarySubtag normalized) policy.locale_overrides
      else
        none
  match override with
  | some o =>
    { blocked_keywords := policy.checks.blocked_keywords ++ o.blocked_keywords
      blocked_regex := policy.checks.blocked_regex ++ o.blocked_regex }
  | none =>
    { blocked_keywords := policy.checks.blocked_keywords
      blocked_regex := policy.checks.blocked_regex }

/-- Camel-case separation of `_normalize_for_matching`: insert a space at
every internal lower-to-upper transition.  Pairwise insertion coincides
with Python's non-overlapping `re.sub(r"([a-z])([A-Z])", r"\1 \2", text)`
because the two-character pattern ends on an uppercase letter, which can
never start the next match. -/
def insertCamelSpaces : List Char → List Char
  | [] => []
  | [c] => [c]
  | c1 :: c2 :: rest =>
    if ('a' ≤ c1 && c1 ≤ 'z') && ('A' ≤ c2 && c2 ≤ 'Z') then
      c1 :: ' ' :: insertCamelSpaces (c2 :: rest)
    else
      c1 :: insertCamelSpaces (c2 :: rest)

/-- Whitespace collapsing of `re.sub(r"\s+", " ", separated)`: each maximal
whitespace run becomes a single space.  `inRun` records whether the previous
character belonged to a run already replaced. -/
def collapseWsAux : List Char → Bool → List Char
  | [], _ => []
  | c :: cs, inRun =>
    if isPySpaceB c then
      if inRun then collapseWsAux cs true else ' ' :: collapseWsAux cs true
    else
      c :: collapseWsAux cs false

/-- `_normalize_for_matching`: camel-case separation, whitespace collapse,
then strip. -/
def normalize_for_matching (text : String) : String :=
  pyStrip (String.mk (collapseWsAux (insertCamelSpaces text.data) false))

/-- `evaluate_legal_text(text, locale, policy, strict_legal)`. -/
def evaluate_legal_text (sem : RegexSem) (text locale : String) (policy : LegalPolicy)
    (strict_legal : Bool) : LegalCheckResult :=
  let checks := checks_for_locale policy locale
  let normalized_text := normalize_for_matching text
  let lowered := pyLower normalized_text
  let kwHits := checks.blocked_keywords.filterMap fun keyword =>
    if containsSub lowered.data (pyLower keyword).data then some ("keyword:" ++ keyword)
    else none
  let reHits := checks.blocked_regex.filterMap fun pattern =>
    if sem.valid pattern then
      if sem.search pattern normalized_text then some ("regex:" ++ pattern) else none
    else
      some ("regex_error:" ++ pattern)
  let hits := kwHits ++ reHits
  let flagged : Bool := decide (0 < hits.length)
  let action := policy.default_action
  let should_block := flagged && (strict_legal || action == "block")
  let violations :=
    if flagged then
      ["Legal content matched blocked rules: " ++ String.intercalate "; " hits]
    else
      []
  { passed := !should_block
    action := action
    flagged := flagged
    should_block := should_block
    hits := hits
    warnings := []
    violations := violations }

/-! ### Brand policy model (`compliance/policy.py`, the fields the evaluator reads) -/

/-- Logo section of `BrandPolicy`. -/
structure LogoPolicy where
  required : Bool
  expected_filenames : List String
deriving DecidableEq, Repr

/-- Color section of `BrandPolicy`.  Coverage fractions are floats in the
source; they are modelled as rationals (no claim depends on rounding). -/
structure ColorsPolicy where
  required_palette : List String
  tolerance : Int
  min_coverage : Rat
deriving DecidableEq, Repr

/-- Imagery section of `BrandPolicy`. -/
structure ImageryPolicy where
  required_keywords : List String
  avoid_keywords : List String
deriving DecidableEq, Repr

/-- `BrandPolicy` restricted to the sections `evaluate_brand_compliance`
reads (the typography section is consumed only by the compositor). -/
structure BrandPolicy where
  logo : LogoPolicy
  colors : ColorsPolicy
  imagery : ImageryPolicy
deriving DecidableEq, Repr

/-- The `logo_path` argument: a `Path` (its final filename component) plus
the result of the `Path.exists()` probe. -/
structure LogoFile where
  name : String
  onDisk : Bool
deriving DecidableEq, Repr

/-- `BrandCheckResult`.  The `checks` dict is insertion-ordered in Python;
it is modelled as the list of insertions in order (the policies under
verification have distinct check keys, so overwriting never occurs). -/
structure BrandCheckResult where
  passed : Bool
  checks : List (String × Bool)
  warnings : List String
  violations : List String
deriving DecidableEq, Repr

/-- Value of one hexadecimal digit, as accepted by `int(_, 16)`. -/
def hexDigitVal (c : Char) : Option Nat :=
  if '0' ≤ c && c ≤ '9' then some (c.toNat - '0'.toNat)
  else if 'a' ≤ c && c ≤ 'f' then some (10 + c.toNat - 'a'.toNat)
  else if 'A' ≤ c && c ≤ 'F' then some (10 + c.toNat - 'A'.toNat)
  else none

/-- Value of a two-digit hex pair `int(value[i:i+2], 16)`. -/
def hexPair (c1 c2 : Char) : Option Nat :=
  match hexDigitVal c1, hexDigitVal c2 with
  | some h, some l => some (16 * h + l)
  | _, _ => none

/-- `_hex_to_rgb`: strip, remove leading `#`s, require six hex digits.
A wrong length raises `ValueError` in the source, as does a non-hex digit
inside `int(_, 16)`; both are modelled as `Except.error`. -/
def hex_to_rgb (hex_color : String) : Except String (Nat × Nat × Nat) :=
  match (pyStripList hex_color.data).dropWhile (fun c => c = '#') with
  | [a, b, c, d, e, f] =>
    match hexPair a b, hexPair c d, hexPair e f with
    | some r, some g, some bl => .ok (r, g, bl)
    | _, _, _ => .error ("Invalid hex color: " ++ hex_color)
  | _ => .error ("Invalid hex color: " ++ hex_color)

/-- Palette loop of `evaluate_brand_compliance`.  The final image is
abstracted by the coverage oracle `cov`, standing for
`_palette_coverage(final_image, rgb, tolerance)`.  Returns the `checks`
entries, the warnings, and the accumulated `palette_ok` flag. -/
def paletteLoop (cov : (Nat × Nat × Nat) → Int → Rat) (tolerance : Int) (minCov : Rat) :
    List String → Except String (List (String × Bool) × List String × Bool)
  | [] => .ok ([], [], true)
  | hex :: rest =>
    match hex_to_rgb hex with
    | .error e => .error e
    | .ok rgb =>
      let coverage := cov rgb tolerance
      let color_ok : Bool := decide (minCov ≤ coverage)
      match paletteLoop cov tolerance minCov rest with
      | .error e => .error e
      | .ok (cs, ws, palOk) =>
        .ok (("color_" ++ pyLower hex, color_ok) :: cs,
          (if color_ok then ws
           else ("Palette color " ++ hex ++ " coverage is below threshold.") :: ws),
          color_ok && palOk)

/-- Logo section of `evaluate_brand_compliance`: the `checks` entries and
violations it contributes.  The `raise ValueError` guard in the source is
unreachable (it fires only when `has_logo` holds with `logo_path is None`,
which `has_logo`'s definition excludes), so the model needs no error case. -/
def brandLogoSection (policy : BrandPolicy) (logo_path : Option LogoFile) :
    List (String × Bool) × List String :=
  if policy.logo.required then
    match logo_path with
    | some f =>
      if f.onDisk then
        if policy.logo.expected_filenames.isEmpty then
          ([("logo_present", true)], [])
        else
          let expected_names := policy.logo.expected_filenames.map pyLower
          let matches_expected := expected_names.contains (pyLower f.name)
          ([("logo_present", true), ("logo_expected_filename", matches_expected)],
           if matches_expected then []
           else ["Logo filename '" ++ f.name ++ "' is not in allowed set."])
      else
        ([("logo_present", false)], ["Required logo is missing."])
    | none => ([("logo_present", false)], ["Required logo is missing."])
  else
    ([("logo_present", match logo_path with | some f => f.onDisk | none => false)], [])

/-- Palette section of `evaluate_brand_compliance`, guarded by
`if policy.colors.required_palette:`. -/
def brandPalettePart (cov : (Nat × Nat × Nat) → Int → Rat) (policy : BrandPolicy) :
    Except String (List (String × Bool) × List String) :=
  if policy.colors.required_palette.isEmpty then .ok ([], [])
  else
    match paletteLoop cov policy.colors.tolerance policy.colors.min_coverage
        policy.colors.required_palette with
    | .error e => .error e
    | .ok (cs, ws, palOk) => .ok (cs ++ [("palette_compliant", palOk)], ws)

/-- `evaluate_brand_compliance(final_image, policy, logo_path, prompt_text)`
with the final image abstracted by the palette-coverage oracle `cov`. -/
def evaluate_brand_compliance (cov : (Nat × Nat × Nat) → Int → Rat) (policy : BrandPolicy)
    (logo_path : Option LogoFile) (prompt_text : String) : Except String BrandCheckResult :=
  match brandPalettePart cov policy with
  | .error e => .error e
  | .ok palettePart =>
  let logoPart := brandLogoSection policy logo_path
  let prompt_lower := pyLower prompt_text
  let requiredPart :=
    if policy.imagery.required_keywords.isEmpty then
      (([], []) : List (String × Bool) × List String)
    else
      let items := policy.imagery.required_keywords.map fun k =>
        ("imagery_required_" ++ k, containsSub prompt_lower.data (pyLower k).data)
      let required_ok := items.all fun item => item.2
      (items ++ [("imagery_required_keywords", required_ok)],
       policy.imagery.required_keywords.filterMap fun k =>
         if containsSub prompt_lower.data (pyLower k).data then none
         else some ("Imagery keyword '" ++ k ++ "' not found in prompt."))
  let avoidChecks := policy.imagery.avoid_keywords.map fun k =>
    ("imagery_avoid_" ++ k, !containsSub prompt_lower.data (pyLower k).data)
  let avoidViolations := policy.imagery.avoid_keywords.filterMap fun k =>
    if containsSub prompt_lower.data (pyLower k).data then
      some ("Prohibited imagery keyword '" ++ k ++ "' present in prompt.")
    else none
  let violations := logoPart.2 ++ avoidViolations
  .ok
    { passed := violations.isEmpty
      checks := logoPart.1 ++ palettePart.1 ++ requiredPart.1 ++ avoidChecks
      warnings := palettePart.2 ++ requiredPart.2
      violations := violations }

/-! ### Generated-image identifiers (`storage/generated_store.py`) -/

/-- Zero-padded fixed-width decimal rendering, the digit layout of
`strftime` fields such as `%Y`, `%m`, `%S`. -/
def padDigits : Nat → Nat → List Char
  | 0, _ => []
  | w + 1, n => padDigits w (n / 10) ++ [Nat.digitChar (n % 10)]

/-- The instant at which `save_new` runs: the `datetime.now(UTC)` fields
that `strftime("%Y%m%dT%H%M%S")` renders, plus the sub-second part that the
format string discards, plus the `uuid4().hex[:8]` suffix drawn for this
save. -/
structure SaveInstant where
  year : Nat
  month : Nat
  day : Nat
  hour : Nat
  minute : Nat
  second : Nat
  subsecondNs : Nat
  suffix : String
deriving DecidableEq, Repr

/-- `strftime('%Y%m%dT%H%M%S')` of the instant. -/
def timestampChars (t : SaveInstant) : List Char :=
  padDigits 4 t.year ++ padDigits 2 t.month ++ padDigits 2 t.day ++ ['T'] ++
    padDigits 2 t.hour ++ padDigits 2 t.minute ++ padDigits 2 t.second

/-- The identifier produced by `save_new`:
`f"{timestamp}_{uuid4().hex[:8]}"`. -/
def image_id (t : SaveInstant) : String :=
  String.mk (timestampChars t ++ '_' :: t.suffix.data)

/-- One save chronologically precedes another: its instant is strictly
earlier, comparing the timestamp fields lexicographically down to the
sub-second part. -/
def happensBefore (t1 t2 : SaveInstant) : Prop :=
  t1.year < t2.year ∨ (t1.year = t2.year ∧
    (t1.month < t2.month ∨ (t1.month = t2.month ∧
      (t1.day < t2.day ∨ (t1.day = t2.day ∧
        (t1.hour < t2.hour ∨ (t1.hour = t2.hour ∧
          (t1.minute < t2.minute ∨ (t1.minute = t2.minute ∧
            (t1.second < t2.second ∨ (t1.second = t2.second ∧
              t1.subsecondNs < t2.subsecondNs)))))))))))

instance (t1 t2 : SaveInstant) : Decidable (happensBefore t1 t2) := by
  unfold happensBefore; infer_instance

/-- One save precedes another already at second resolution (the granularity
the identifier's timestamp records). -/
def secondsLt (t1 t2 : SaveInstant) : Prop :=
  t1.year < t2.year ∨ (t1.year = t2.year ∧
    (t1.month < t2.month ∨ (t1.month = t2.month ∧
      (t1.day < t2.day ∨ (t1.day = t2.day ∧
        (t1.hour < t2.hour ∨ (t1.hour = t2.hour ∧
          (t1.minute < t2.minute ∨ (t1.minute = t2.minute ∧
            t1.second < t2.second)))))))))

instance (t1 t2 : SaveInstant) : Decidable (secondsLt t1 t2) := by
  unfold secondsLt; infer_instance

/-! ### Pipeline orchestration model (`pipeline.py`)

The orchestration is embedded as a write-trace semantics: the functions
below mirror the control flow of `_load_reused_or_generate_base`,
`_process_product` and `run_pipeline`, recording every file-write the
source performs (generated-store saves, output-variant saves, manifest and
metrics writes) in program order, and stopping at the first raised
exception exactly where the source raises.  Image contents, overlays and
the S3 mirror (absent unless credentials are configured) are irrelevant to
the claims and are not modelled. -/

deriving instance DecidableEq for Except

/-- A file written by the pipeline. -/
inductive WriteEvent where
  | storeGenerated (productId : String)
  | outputVariant (productId ratio locale : String)
  | manifestFile
  | metricsFile
deriving DecidableEq, Repr

/-- Why a run aborted: `ComplianceViolationError`, or the `ValueError`s of
the `id` generated-image mode. -/
inductive AbortKind where
  | complianceViolation
  | valueError
deriving DecidableEq, Repr

/-- Per-product inputs of `_process_product`: the resolver verdict
(`heroOnDisk` ↔ `hero_source == "reused"`), the generation prompt built by
`build_generation_prompt`, and whether `store.load_last_for_product` /
`store.load_by_id` would find a stored image. -/
structure PipeProduct where
  id : String
  promptText : String
  heroOnDisk : Bool
  hasLastStored : Bool
deriving DecidableEq, Repr

/-- The run-configuration fields the modelled control flow reads. -/
structure PipeConfig where
  strictLegal : Bool
  strictBrand : Bool
  dryRun : Bool
  generatedImageMode : String
  generatedImageId : Option String
  idFoundInStore : Bool
deriving DecidableEq, Repr

/-- `_ProductResult` counters relevant to the claims, plus the recorded
`hero_source`. -/
structure ProductOutcome where
  heroSource : String
  assetsReused : Nat
  assetsGenerated : Nat
  variantsProduced : Nat
deriving DecidableEq, Repr

/-- `RunMetrics` counters accumulated by `run_pipeline`. -/
structure PipeMetrics where
  totalProductsProcessed : Nat
  assetsReused : Nat
  assetsGenerated : Nat
  totalVariantsProduced : Nat
deriving DecidableEq, Repr

/-- `TARGET_VARIANTS` keys in dict insertion order (`imaging/variants.py`). -/
def targetVariantKeys : List String := ["1x1", "9x16", "16x9"]

/-- `_load_reused_or_generate_base`: returns the `hero_source` tag and the
writes performed, or the kind of exception raised.  In `new` mode outside
dry runs, `store.save_new` writes the freshly generated hero. -/
def loadReusedOrGenerateBase (cfg : PipeConfig) (p : PipeProduct) :
    Except AbortKind (String × List WriteEvent) :=
  if p.heroOnDisk then .ok ("reused", [])
  else if cfg.generatedImageMode == "last" && p.hasLastStored then .ok ("generated_last", [])
  else if cfg.generatedImageMode == "id" then
    match cfg.generatedImageId with
    | none => .error .valueError
    | some _ => if cfg.idFoundInStore then .ok ("generated_id", []) else .error .valueError
  else .ok ("generated_new", if cfg.dryRun then [] else [.storeGenerated p.id])

/-- Inner locale loop of `_process_product` for one ratio: legal-check the
(localized) message, brand-check the composed variant when a brand policy
is configured, and save the variant outside dry runs.
`brandViolates ratio locale` abstracts
`len(evaluate_brand_compliance(...).violations) > 0` for that variant.
Returns the writes performed plus either the number of variants produced
or the abort raised. -/
def localeLoop (legalPolicy : Option LegalPolicy) (sem : RegexSem) (cfg : PipeConfig)
    (brandConfigured : Bool) (brandViolates : String → String → Bool)
    (message : String) (translate : String → String → String) (p : PipeProduct)
    (ratio : String) : List String → List WriteEvent × Except AbortKind Nat
  | [] => ([], .ok 0)
  | locale :: locales =>
    let localized := if locale == "en" then message else translate message locale
    let blocked :=
      match legalPolicy with
      | some pol => (evaluate_legal_text sem localized locale pol cfg.strictLegal).should_block
      | none => false
    if blocked then ([], .error .complianceViolation)
    else if brandConfigured && brandViolates ratio locale && cfg.strictBrand then
      ([], .error .complianceViolation)
    else
      let writes : List WriteEvent :=
        if cfg.dryRun then [] else [.outputVariant p.id ratio locale]
      match localeLoop legalPolicy sem cfg brandConfigured brandViolates
          message translate p ratio locales with
      | (evs, .ok n) => (writes ++ evs, .ok (n + 1))
      | (evs, .error k) => (writes ++ evs, .error k)

/-- Outer ratio loop of `_process_product`: run the locale loop for each
target ratio in order, stopping at the first raise. -/
def ratioLoop (legalPolicy : Option LegalPolicy) (sem : RegexSem) (cfg : PipeConfig)
    (brandConfigured : Bool) (brandViolates : String → String → Bool)
    (message : String) (translate : String → String → String) (p : PipeProduct)
    (allLocales : List String) : List String → List WriteEvent × Except AbortKind Nat
  | [] => ([], .ok 0)
  | ratio :: ratios =>
    match localeLoop legalPolicy sem cfg brandConfigured brandViolates
        message translate p ratio allLocales with
    | (evs, .error k) => (evs, .error k)
    | (evs, .ok n) =>
      match ratioLoop legalPolicy sem cfg brandConfigured brandViolates
          message translate p allLocales ratios with
      | (evs', .ok n') => (evs ++ evs', .ok (n + n'))
      | (evs', .error k) => (evs ++ evs', .error k)

/-- `_process_product`: hero acquisition, prompt legal gate, then the
ratio × locale loop; mirrors the order of writes and raises. -/
def processProduct (legalPolicy : Option LegalPolicy) (sem : RegexSem) (cfg : PipeConfig)
    (brandConfigured : Bool) (brandViolates : String → String → Bool)
    (message : String) (translate : String → String → String)
    (localesToRender : List String) (p : PipeProduct) :
    List WriteEvent × Except AbortKind ProductOutcome :=
  match loadReusedOrGenerateBase cfg p with
  | .error k => ([], .error k)
  | .ok (baseSource, loadEvents) =>
    let promptBlocked :=
      match legalPolicy with
      | some pol => (evaluate_legal_text sem p.promptText "en" pol cfg.strictLegal).should_block
      | none => false
    if promptBlocked then (loadEvents, .error .complianceViolation)
    else
      let assetsReused :=
        if baseSource == "reused" || baseSource == "generated_last" || baseSource == "generated_id"
        then 1 else 0
      match ratioLoop legalPolicy sem cfg brandConfigured brandViolates
          message translate p localesToRender targetVariantKeys with
      | (evs, .error k) => (loadEvents ++ evs, .error k)
      | (evs, .ok variants) =>
        (loadEvents ++ evs,
         .ok { heroSource := baseSource
               assetsReused := assetsReused
               assetsGenerated := 1 - assetsReused
               variantsProduced := variants })

/-- Product loop of `run_pipeline` with metric accumulation; an exception
raised by `_process_product` propagates, freezing the writes performed so
far. -/
def productLoop (legalPolicy : Option LegalPolicy) (sem : RegexSem) (cfg : PipeConfig)
    (brandConfigured : Bool) (brandViolates : String → String → Bool)
    (message : String) (translate : String → String → String)
    (localesToRender : List String) (acc : PipeMetrics) :
    List PipeProduct → List WriteEvent × Except AbortKind PipeMetrics
  | [] => ([], .ok acc)
  | p :: rest =>
    match processProduct legalPolicy sem cfg brandConfigured brandViolates
        message translate localesToRender p with
    | (evs, .error k) => (evs, .error k)
    | (evs, .ok o) =>
      let acc' : PipeMetrics :=
        { totalProductsProcessed := acc.totalProductsProcessed + 1
          assetsReused := acc.assetsReused + o.assetsReused
          assetsGenerated := acc.assetsGenerated + o.assetsGenerated
          totalVariantsProduced := acc.totalVariantsProduced + o.variantsProduced }
      match productLoop legalPolicy sem cfg brandConfigured brandViolates
          message translate localesToRender acc' rest with
      | (evs', res) => (evs ++ evs', res)

/-- `run_pipeline` write-trace: process every product in brief order, then
write the manifest and the metrics files (in that order, also in dry
runs).  Returns the writes, and the final metrics or the abort that
escaped. -/
def runPipelineModel (legalPolicy : Option LegalPolicy) (sem : RegexSem) (cfg : PipeConfig)
    (brandConfigured : Bool) (brandViolates : String → String → Bool)
    (message : String) (translate : String → String → String)
    (localesToRender : List String) (products : List PipeProduct) :
    List WriteEvent × Except AbortKind PipeMetrics :=
  match productLoop legalPolicy sem cfg brandConfigured brandViolates
      message translate localesToRender ⟨0, 0, 0, 0⟩ products with
  | (evs, .error k) => (evs, .error k)
  | (evs, .ok m) => (evs ++ [.manifestFile, .metricsFile], .ok m)

/-- Lexicographic (code-point) order on strings: the order in which
identifiers appear under a lexical sort, matching Python string
comparison. -/
def lexLt (s t : String) : Prop :=
  List.Lex (fun a b : Char => a < b) s.data t.data

instance (s t : String) : Decidable (lexLt s t) := by
  unfold lexLt; infer_instance

/-! ### Adaptive text fitting (`imaging/text_overlay.py`)

`_pick_font(font_size, preferred_fonts)` deterministically resolves a
concrete font for a requested size, and all geometry the algorithm reads
comes from `draw.textbbox` / the `"Ag"` line-height probe on that font.
The rendering stack is therefore abstracted as a `FontMetrics` oracle
indexed by the requested font size; the font preferences and the drawing
context are fixed inside the oracle. -/

/-- `MIN_MESSAGE_FONT_SIZE_PX`. -/
def MIN_MESSAGE_FONT_SIZE_PX : Int := 24

/-- Font metrics for a fixed drawing context and font preference list:
`width size text` is the bbox width `bbox[2] - bbox[0]` of `text` rendered
at the font `_pick_font(size)` resolves; `lineHeight size` is the
`int(bbox[3] - bbox[1])` height of the `"Ag"` probe (nonnegative, since
`textbbox` returns a top-left/bottom-right box). -/
structure FontMetrics where
  width : Int → String → Int
  lineHeight : Int → Nat

/-- `split_oversized_word` inside `_wrap_text`: accumulate characters while
the candidate chunk fits (or the chunk is empty), else flush. -/
def splitOversizedAux (width : String → Int) (maxW : Int) :
    List Char → String → List String
  | [], current => if current == "" then [] else [current]
  | c :: cs, current =>
    let candidate := current.push c
    if width candidate ≤ maxW || current == "" then
      splitOversizedAux width maxW cs candidate
    else
      current :: splitOversizedAux width maxW cs (String.mk [c])

/-- Word loop of `_wrap_text`: greedy wrap with `currentLine` the words of
the line under construction. -/
def wrapWordsAux (width : String → Int) (maxW : Int) :
    List String → List String → List String
  | [], currentLine => if currentLine.isEmpty then [] else [joinSpace currentLine]
  | w :: ws, currentLine =>
    let candidate := pyStrip (joinSpace (currentLine ++ [w]))
    if width candidate ≤ maxW then
      wrapWordsAux width maxW ws (currentLine ++ [w])
    else if currentLine.isEmpty then
      splitOversizedAux width maxW w.data "" ++ wrapWordsAux width maxW ws []
    else
      joinSpace currentLine :: wrapWordsAux width maxW ws [w]

/-- `_wrap_text(draw, text, font, max_width)` with the font's widths given
by `width`. -/
def wrap_text (width : String → Int) (text : String) (maxW : Int) : List String :=
  if maxW ≤ 0 then (if text == "" then [] else [text])
  else wrapWordsAux width maxW (pySplit text) []

/-- `_wrapped_text_total_height(line_height, line_count)`.  The source
spacing term is `int(line_height * 0.35)` under binary floating point; it
is modelled in exact arithmetic as `line_height * 35 / 100`.  No claim
depends on the rounding of this term: the proofs use only that the total
is monotone in the line count. -/
def wrapped_text_total_height (lineHeight : Nat) (lineCount : Nat) : Nat :=
  if lineCount ≤ 0 then 0
  else lineHeight * lineCount + (lineCount - 1) * (lineHeight * 35 / 100)

/-- The fitting predicate of the binary search in `_choose_fitting_font`:
at font size `size`, the wrapped message's total height fits within
`max_text_height`. -/
def fitsAt (m : FontMetrics) (message : String) (maxW maxH : Int) (size : Int) : Bool :=
  decide ((wrapped_text_total_height (m.lineHeight size)
    (wrap_text (m.width size) message maxW).length : Int) ≤ maxH)

/-- The `while low <= high` binary search of `_choose_fitting_font`,
tracking the best (largest) fitting size found so far.  `(low + high) // 2`
is Python floor division; `low` and `high` stay nonnegative throughout the
search, where floor and Euclidean division agree. -/
def fontSearch (fits : Int → Bool) (low high best : Int) : Int :=
  if _h : low ≤ high then
    let mid := (low + high) / 2
    if fits mid then fontSearch fits (mid + 1) high mid
    else fontSearch fits low (mid - 1) best
  else best
termination_by (high + 1 - low).toNat
decreasing_by all_goals omega

/-- `_choose_fitting_font`, reduced to the chosen font size: the returned
`best_font`, `best_lines` and `best_line_height` are exactly
`_pick_font(size)`, `_wrap_text` and the line height at this size, and are
recomputable from it.  `int(max_text_height * MAX_FONT_BOX_HEIGHT_RATIO)`
is modelled as `(maxH * 45) / 100` in `Int` (the `max` with the minimum
size makes the division's rounding mode irrelevant for negative heights). -/
def choose_fitting_font_size (m : FontMetrics) (message : String) (maxW maxH : Int) : Int :=
  let maxCandidate := max MIN_MESSAGE_FONT_SIZE_PX ((maxH * 45) / 100)
  fontSearch (fitsAt m message maxW maxH)
    MIN_MESSAGE_FONT_SIZE_PX maxCandidate MIN_MESSAGE_FONT_SIZE_PX

/-- A word as produced by Python's `str.split()`: nonempty and free of
whitespace characters. -/
def CleanWord (w : String) : Prop :=
  w.data ≠ [] ∧ ∀ c ∈ w.data, isPySpaceB c = false

/-- How the word list of a text relates to the word list of the same text
extended on the right: either whole words were appended, or the last word
was additionally extended by whitespace-free characters. -/
def ExtendedWords (base full : List String) : Prop :=
  (∃ extra, full = base ++ extra) ∨
  (∃ pre w τ extra, base = pre ++ [w] ∧ full = pre ++ (w ++ τ) :: extra ∧
    ∀ c ∈ τ.data, isPySpaceB c = false)

/-! ### Helper lemmas -/

/-- The global blocked keywords are always contained in the effective
per-locale keyword list. -/
theorem global_keywords_subset_checks_for_locale (policy : LegalPolicy) (locale : String)
    (k : String) (hk : k ∈ policy.checks.blocked_keywords) :
    k ∈ (checks_for_locale policy locale).blocked_keywords := by
  unfold checks_for_locale
  dsimp only
  split
  · exact List.mem_append_left _ hk
  · exact hk

/-! ### C1: should_block and passed shape of the legal evaluator -/

/-- C1: for every regex oracle, text, locale, legal policy and strict flag,
the legal evaluator's `should_block` equals
`flagged AND (strict OR default_action == "block")`, and `passed` is the
negation of `should_block` (so a flagged result under a warn-action,
non-strict policy still has `passed = true`). -/
theorem legal_should_block_iff_and_passed_negation (sem : RegexSem) (text locale : String)
    (policy : LegalPolicy) (strict : Bool) :
    (evaluate_legal_text sem text locale policy strict).should_block
      = ((evaluate_legal_text sem text locale policy strict).flagged
          && (strict || policy.default_action == "block")) ∧
    (evaluate_legal_text sem text locale policy strict).passed
      = !(evaluate_legal_text sem text locale policy strict).should_block := by
  exact ⟨rfl, rfl⟩

/-! ### C10: warnings and violations shape of the legal evaluator -/

/-- C10: the legal evaluator always returns an empty `warnings` list, and
its `violations` list holds exactly one combined message when `flagged` is
true and is empty otherwise — warn-mode findings are reported through
`violations`, never `warnings`. -/
theorem legal_result_warnings_empty_violations_shape (sem : RegexSem) (text locale : String)
    (policy : LegalPolicy) (strict : Bool) :
    (evaluate_legal_text sem text locale policy strict).warnings = [] ∧
    (evaluate_legal_text sem text locale policy strict).violations.length
      = (if (evaluate_legal_text sem text locale policy strict).flagged then 1 else 0) := by
  refine ⟨rfl, ?_⟩
  unfold evaluate_legal_text
  dsimp only
  split <;> rfl

/-! ### C2: keyword containment and the flagged verdict -/

/-- C2 counterexample: the claim "if the text contains a configured blocked
keyword case-insensitively then `flagged = true`" fails on the code: the
raw text `"freeMoney"` contains the blocked keyword `"freemoney"`
case-insensitively, but matching runs against the *normalized* text
`"free Money"`, into which normalization has inserted a space, so the
evaluator does not flag it. -/
theorem legal_raw_keyword_containment_not_flagged_cex :
    containsSub (pyLower "freeMoney").data (pyLower "freemoney").data = true ∧
    (evaluate_legal_text trivialRegexSem "freeMoney" "en"
      ⟨"warn", ⟨["freemoney"], []⟩, []⟩ false).flagged = false :=
  ⟨by decide, by decide⟩

/-- C2 (amended): if the *normalized* text contains a configured blocked
keyword case-insensitively, the evaluator flags it; matching is a
case-insensitive substring test of each blocked keyword against the
normalized text (camel-case separation plus whitespace collapse). -/
theorem legal_normalized_keyword_containment_flags (sem : RegexSem) (text locale : String)
    (policy : LegalPolicy) (strict : Bool) (keyword : String)
    (hk : keyword ∈ policy.checks.blocked_keywords)
    (hc : containsSub (pyLower (normalize_for_matching text)).data (pyLower keyword).data
      = true) :
    (evaluate_legal_text sem text locale policy strict).flagged = true := by
  unfold evaluate_legal_text
  dsimp only
  rw [decide_eq_true_iff]
  have hmem : ("keyword:" ++ keyword) ∈
      (checks_for_locale policy locale).blocked_keywords.filterMap fun kw =>
        if containsSub (pyLower (normalize_for_matching text)).data (pyLower kw).data then
          some ("keyword:" ++ kw)
        else none := by
    refine List.mem_filterMap.mpr ⟨keyword, ?_, ?_⟩
    · exact global_keywords_subset_checks_for_locale policy locale keyword hk
    · rw [hc]
      rfl
  have : ("keyword:" ++ keyword) ∈
      ((checks_for_locale policy locale).blocked_keywords.filterMap fun kw =>
        if containsSub (pyLower (normalize_for_matching text)).data (pyLower kw).data then
          some ("keyword:" ++ kw)
        else none) ++
      (checks_for_locale policy locale).blocked_regex.filterMap fun pattern =>
        if sem.valid pattern then
          if sem.search pattern (normalize_for_matching text) then some ("regex:" ++ pattern)
          else none
        else some ("regex_error:" ++ pattern) :=
    List.mem_append_left _ hmem
  exact List.length_pos.mpr (List.ne_nil_of_mem this)

/-- C2 witness: a camel-case concatenation `"FreeMoney"` normalizes to
`"Free Money"`, which contains the blocked keyword `"free money"`, and the
evaluator indeed flags it. -/
theorem legal_normalized_keyword_containment_flags_witness :
    ("free money" ∈
      (⟨"warn", ⟨["free money"], []⟩, []⟩ : LegalPolicy).checks.blocked_keywords) ∧
    containsSub (pyLower (normalize_for_matching "Win FreeMoney today")).data
      (pyLower "free money").data = true ∧
    (evaluate_legal_text trivialRegexSem "Win FreeMoney today" "en"
      ⟨"warn", ⟨["free money"], []⟩, []⟩ false).flagged = true :=
  ⟨by decide, by decide,
    legal_normalized_keyword_containment_flags trivialRegexSem "Win FreeMoney today" "en"
      ⟨"warn", ⟨["free money"], []⟩, []⟩ false "free money" (by decide) (by decide)⟩

/-! ### C6: locale override resolution -/

/-- C6: the effective rule set is resolved from the normalized locale key
(hyphens to underscores, lowercased): an exact override wins; failing
that, when the key has an underscore, the primary-subtag override applies;
with neither, the global lists stand alone.  In particular `es_MX`
inherits the `es` override exactly when no `es_mx` override exists. -/
theorem legal_locale_override_resolution (policy : LegalPolicy) (locale : String) :
    (∀ o, List.lookup (normalizeLocaleKey locale) policy.locale_overrides = some o →
      checks_for_locale policy locale =
        ⟨policy.checks.blocked_keywords ++ o.blocked_keywords,
         policy.checks.blocked_regex ++ o.blocked_regex⟩) ∧
    (List.lookup (normalizeLocaleKey locale) policy.locale_overrides = none →
      (normalizeLocaleKey locale).data.contains '_' = true →
      ∀ o, List.lookup (primarySubtag (normalizeLocaleKey locale)) policy.locale_overrides
          = some o →
        checks_for_locale policy locale =
          ⟨policy.checks.blocked_keywords ++ o.blocked_keywords,
           policy.checks.blocked_regex ++ o.blocked_regex⟩) ∧
    (List.lookup (normalizeLocaleKey locale) policy.locale_overrides = none →
      ((normalizeLocaleKey locale).data.contains '_' = false ∨
        List.lookup (primarySubtag (normalizeLocaleKey locale)) policy.locale_overrides
          = none) →
      checks_for_locale policy locale =
        ⟨policy.checks.blocked_keywords, policy.checks.blocked_regex⟩) := by
  refine ⟨?_, ?_, ?_⟩
  · intro o ho
    simp [checks_for_locale, ho]
  · intro hnone hus o ho
    have hus' : '_' ∈ (normalizeLocaleKey locale).data := by simpa using hus
    simp [checks_for_locale, hnone, hus', ho]
  · intro hnone halt
    rcases halt with h | h
    · have h' : '_' ∉ (normalizeLocaleKey locale).data := by simpa using h
      simp [checks_for_locale, hnone, h']
    · by_cases hc : (normalizeLocaleKey locale).data.contains '_' = true
      · have hc' : '_' ∈ (normalizeLocaleKey locale).data := by simpa using hc
        simp [checks_for_locale, hnone, hc', h]
      · have hc' : '_' ∉ (normalizeLocaleKey locale).data := by
          simpa using hc
        simp [checks_for_locale, hnone, hc']

/-- C6 witness: with an `es` override and no `es_mx` override, locale
`es_MX` resolves to the global lists extended by the `es` override. -/
theorem legal_locale_override_resolution_witness :
    checks_for_locale
      (⟨"warn", ⟨["a"], ["r"]⟩, [("es", ⟨["b"], ["s"]⟩)]⟩ : LegalPolicy) "es_MX"
      = ⟨["a", "b"], ["r", "s"]⟩ :=
  (legal_locale_override_resolution
      (⟨"warn", ⟨["a"], ["r"]⟩, [("es", ⟨["b"], ["s"]⟩)]⟩ : LegalPolicy) "es_MX").2.1
    (by decide) (by decide) ⟨["b"], ["s"]⟩ (by decide)

/-! ### C3: brand evaluator verdict shape -/

/-- A list with a member is not `isEmpty`. -/
theorem listIsEmpty_false_of_mem {α : Type} {l : List α} {x : α} (h : x ∈ l) :
    l.isEmpty = false := by
  cases l with
  | nil => exact absurd h (List.not_mem_nil x)
  | cons a t => rfl

/-- `isEmpty` characterizes the empty list. -/
theorem listIsEmpty_true_iff {α : Type} {l : List α} : l.isEmpty = true ↔ l = [] := by
  cases l <;> simp

/-- A color of the palette whose parsed value measures below the minimum
coverage contributes its warning to the palette loop's warning list. -/
theorem paletteLoop_warning_of_below (cov : (Nat × Nat × Nat) → Int → Rat) (tol : Int)
    (minCov : Rat) :
    ∀ (l : List String) (out : List (String × Bool) × List String × Bool)
      (hex : String) (rgb : Nat × Nat × Nat),
      paletteLoop cov tol minCov l = .ok out → hex ∈ l → hex_to_rgb hex = .ok rgb →
      decide (minCov ≤ cov rgb tol) = false →
      ("Palette color " ++ hex ++ " coverage is below threshold.") ∈ out.2.1
  | [], _, _, _, _, hmem, _, _ => absurd hmem (List.not_mem_nil _)
  | hex0 :: rest, out, hex, rgb, hok, hmem, hrgb, hbelow => by
    unfold paletteLoop at hok
    rcases List.mem_cons.mp hmem with heq | htail
    · subst heq
      rw [hrgb] at hok
      cases h2 : paletteLoop cov tol minCov rest with
      | error e => rw [h2] at hok; exact absurd hok (by simp)
      | ok triple =>
        obtain ⟨cs, ws, palOk⟩ := triple
        rw [h2] at hok
        dsimp only at hok
        rw [hbelow] at hok
        injection hok with hout
        subst hout
        exact List.mem_cons_self _ _
    · cases h1 : hex_to_rgb hex0 with
      | error e => rw [h1] at hok; exact absurd hok (by simp)
      | ok rgb0 =>
        rw [h1] at hok
        cases h2 : paletteLoop cov tol minCov rest with
        | error e => rw [h2] at hok; exact absurd hok (by simp)
        | ok triple =>
          obtain ⟨cs, ws, palOk⟩ := triple
          rw [h2] at hok
          dsimp only at hok
          injection hok with hout
          subst hout
          have hsub := paletteLoop_warning_of_below cov tol minCov rest ⟨cs, ws, palOk⟩
            hex rgb h2 htail hrgb hbelow
          dsimp only
          by_cases hco : (decide (minCov ≤ cov rgb0 tol)) = true
          · rw [hco]
            simpa using hsub
          · rw [Bool.not_eq_true] at hco
            rw [hco]
            simp only [Bool.false_eq_true, if_false]
            exact List.mem_cons_of_mem _ hsub

/-- C3: whenever the brand evaluator returns a result, `passed` is true iff
the violations list is empty; an avoided imagery keyword present
case-insensitively in the prompt forces `passed = false`; the violations
and the verdict are independent of the measured palette coverages (palette
shortfalls are warnings only); and a required color measuring below the
minimum coverage contributes a warning. -/
theorem brand_passed_iff_no_violations (cov : (Nat × Nat × Nat) → Int → Rat)
    (policy : BrandPolicy) (logo_path : Option LogoFile) (prompt_text : String)
    (r : BrandCheckResult)
    (h : evaluate_brand_compliance cov policy logo_path prompt_text = .ok r) :
    ((r.passed = true) ↔ r.violations = []) ∧
    (∀ kw, kw ∈ policy.imagery.avoid_keywords →
      containsSub (pyLower prompt_text).data (pyLower kw).data = true →
      r.passed = false) ∧
    (∀ cov2 r2, evaluate_brand_compliance cov2 policy logo_path prompt_text = .ok r2 →
      r2.violations = r.violations ∧ r2.passed = r.passed) ∧
    (∀ hex rgb, hex ∈ policy.colors.required_palette → hex_to_rgb hex = .ok rgb →
      decide (policy.colors.min_coverage ≤ cov rgb policy.colors.tolerance) = false →
      ("Palette color " ++ hex ++ " coverage is below threshold.") ∈ r.warnings) := by
  unfold evaluate_brand_compliance at h
  cases hp : brandPalettePart cov policy with
  | error e => rw [hp] at h; exact absurd h (by simp)
  | ok pp =>
    rw [hp] at h
    injection h with h
    subst h
    refine ⟨?_, ?_, ?_, ?_⟩
    · exact listIsEmpty_true_iff
    · intro kw hkw hcs
      have hmem : ("Prohibited imagery keyword '" ++ kw ++ "' present in prompt.") ∈
          policy.imagery.avoid_keywords.filterMap fun k =>
            if containsSub (pyLower prompt_text).data (pyLower k).data then
              some ("Prohibited imagery keyword '" ++ k ++ "' present in prompt.")
            else none := by
        refine List.mem_filterMap.mpr ⟨kw, hkw, ?_⟩
        rw [hcs]
        rfl
      exact listIsEmpty_false_of_mem (List.mem_append_right _ hmem)
    · intro cov2 r2 h2
      unfold evaluate_brand_compliance at h2
      cases hp2 : brandPalettePart cov2 policy with
      | error e => rw [hp2] at h2; exact absurd h2 (by simp)
      | ok pp2 =>
        rw [hp2] at h2
        injection h2 with h2
        subst h2
        exact ⟨rfl, rfl⟩
    · intro hex rgb hhex hrgb hbelow
      have hne : policy.colors.required_palette.isEmpty = false :=
        listIsEmpty_false_of_mem hhex
      unfold brandPalettePart at hp
      rw [hne] at hp
      simp only [Bool.false_eq_true, if_false] at hp
      cases hl : paletteLoop cov policy.colors.tolerance policy.colors.min_coverage
          policy.colors.required_palette with
      | error e => rw [hl] at hp; exact absurd hp (by simp)
      | ok triple =>
        obtain ⟨cs, ws, palOk⟩ := triple
        rw [hl] at hp
        injection hp with hpp
        subst hpp
        have hw := paletteLoop_warning_of_below cov policy.colors.tolerance
          policy.colors.min_coverage policy.colors.required_palette ⟨cs, ws, palOk⟩
          hex rgb hl hhex hrgb hbelow
        exact List.mem_append_left _ hw

/-- C3 witness: a policy with a required palette color measuring below
coverage and a clean prompt passes with a warning; the passed verdict
matches emptiness of violations; evaluations are coverage-independent. -/
theorem brand_passed_iff_no_violations_witness :
    ((evaluate_brand_compliance (fun _ _ => 0)
        ⟨⟨false, []⟩, ⟨["#FF0000"], 10, 1⟩, ⟨[], ["gun"]⟩⟩ none "a calm shoe ad")
      = .ok ⟨true, [("logo_present", false), ("color_#ff0000", false),
          ("palette_compliant", false), ("imagery_avoid_gun", true)],
          ["Palette color #FF0000 coverage is below threshold."], []⟩) ∧
    ((true = true) ↔
      (([] : List String) = [])) ∧
    ("Palette color #FF0000 coverage is below threshold.") ∈
      (⟨true, [("logo_present", false), ("color_#ff0000", false),
          ("palette_compliant", false), ("imagery_avoid_gun", true)],
          ["Palette color #FF0000 coverage is below threshold."], []⟩ :
        BrandCheckResult).warnings := by
  refine ⟨by decide, ?_, ?_⟩
  · exact (brand_passed_iff_no_violations (fun _ _ => 0)
      ⟨⟨false, []⟩, ⟨["#FF0000"], 10, 1⟩, ⟨[], ["gun"]⟩⟩ none "a calm shoe ad"
      ⟨true, [("logo_present", false), ("color_#ff0000", false),
        ("palette_compliant", false), ("imagery_avoid_gun", true)],
        ["Palette color #FF0000 coverage is below threshold."], []⟩ (by decide)).1
  · exact (brand_passed_iff_no_violations (fun _ _ => 0)
      ⟨⟨false, []⟩, ⟨["#FF0000"], 10, 1⟩, ⟨[], ["gun"]⟩⟩ none "a calm shoe ad"
      ⟨true, [("logo_present", false), ("color_#ff0000", false),
        ("palette_compliant", false), ("imagery_avoid_gun", true)],
        ["Palette color #FF0000 coverage is below threshold."], []⟩ (by decide)).2.2.2
      "#FF0000" (255, 0, 0) (by decide) (by decide) (by decide)

/-! ### C9: lexical ordering of generated-image identifiers -/

/-- `padDigits` always renders exactly `w` characters. -/
theorem padDigits_length : ∀ w n : Nat, (padDigits w n).length = w
  | 0, _ => rfl
  | w + 1, n => by
    unfold padDigits
    rw [List.length_append, padDigits_length w (n / 10)]
    rfl

/-- Lexicographic order is preserved by appending suffixes to two lists of
equal length. -/
theorem lex_append_of_lex {r : Char → Char → Prop} :
    ∀ {l1 l2 : List Char}, List.Lex r l1 l2 → l1.length = l2.length →
      ∀ (r1 r2 : List Char), List.Lex r (l1 ++ r1) (l2 ++ r2) := by
  intro l1 l2 h
  induction h with
  | nil => intro hlen; exact absurd hlen (by simp)
  | @rel a l1 b l2 hab =>
    intro _ r1 r2
    exact List.Lex.rel hab
  | @cons a l1 l2 _ ih =>
    intro hlen r1 r2
    exact List.Lex.cons (ih (by simpa using hlen) r1 r2)

/-- Lexicographic order is preserved by prepending a common prefix. -/
theorem lex_append_left {r : Char → Char → Prop} (t1 t2 : List Char)
    (h : List.Lex r t1 t2) : ∀ l : List Char, List.Lex r (l ++ t1) (l ++ t2)
  | [] => h
  | _ :: l => List.Lex.cons (lex_append_left t1 t2 h l)

/-- Decimal digit characters compare like their digits. -/
theorem digitChar_lt_of_lt (d1 d2 : Nat) (h : d1 < d2) (h2 : d2 < 10) :
    Nat.digitChar d1 < Nat.digitChar d2 := by
  have h1 : d1 < 10 := lt_trans h h2
  interval_cases d1 <;> interval_cases d2 <;> simp_all <;> decide

/-- Zero-padded renderings of numbers below `10 ^ w` compare
lexicographically like the numbers. -/
theorem padDigits_lt : ∀ (w n1 n2 : Nat), n1 < n2 → n2 < 10 ^ w →
    List.Lex (fun a b : Char => a < b) (padDigits w n1) (padDigits w n2)
  | 0, n1, n2, h, hb => absurd (lt_of_le_of_lt (Nat.zero_le n1) (lt_of_lt_of_le h (by
      simpa using hb))) (lt_irrefl 0)
  | w + 1, n1, n2, h, hb => by
    have hq2 : n2 / 10 < 10 ^ w := by
      rw [Nat.div_lt_iff_lt_mul (by norm_num)]
      calc n2 < 10 ^ (w + 1) := hb
        _ = 10 ^ w * 10 := by ring
    rcases Nat.lt_trichotomy (n1 / 10) (n2 / 10) with hq | hq | hq
    · unfold padDigits
      exact lex_append_of_lex (padDigits_lt w _ _ hq hq2)
        (by rw [padDigits_length, padDigits_length]) _ _
    · unfold padDigits
      rw [hq]
      refine lex_append_left _ _ ?_ (padDigits w (n2 / 10))
      have hm : n1 % 10 < n2 % 10 := by
        have e1 := Nat.div_add_mod n1 10
        have e2 := Nat.div_add_mod n2 10
        omega
      exact List.Lex.rel (digitChar_lt_of_lt _ _ hm (Nat.mod_lt _ (by norm_num)))
    · have hle : n1 / 10 ≤ n2 / 10 := Nat.div_le_div_right (Nat.le_of_lt h)
      exact absurd hq (Nat.not_lt.mpr hle)

/-- The `strftime` rendering has a fixed width of fifteen characters. -/
theorem timestampChars_length (t : SaveInstant) : (timestampChars t).length = 15 := by
  simp [timestampChars, padDigits_length]

/-- Instants ordered at second resolution have lexicographically ordered
`strftime` renderings, provided the calendar fields fit their padded
widths (true of every real `datetime`: year ≤ 9999, other fields below
100). -/
theorem timestampChars_lt (t1 t2 : SaveInstant)
    (hy : t2.year < 10000) (hmo : t2.month < 100) (hd : t2.day < 100)
    (hh : t2.hour < 100) (hmi : t2.minute < 100) (hs : t2.second < 100)
    (h : secondsLt t1 t2) :
    List.Lex (fun a b : Char => a < b) (timestampChars t1) (timestampChars t2) := by
  unfold timestampChars
  simp only [List.append_assoc]
  rcases h with h | ⟨ey, h⟩
  · exact lex_append_of_lex (padDigits_lt 4 _ _ h (by simpa using hy))
      (by rw [padDigits_length, padDigits_length]) _ _
  rw [ey]
  refine lex_append_left _ _ ?_ _
  rcases h with h | ⟨emo, h⟩
  · exact lex_append_of_lex (padDigits_lt 2 _ _ h (by simpa using hmo))
      (by rw [padDigits_length, padDigits_length]) _ _
  rw [emo]
  refine lex_append_left _ _ ?_ _
  rcases h with h | ⟨ed, h⟩
  · exact lex_append_of_lex (padDigits_lt 2 _ _ h (by simpa using hd))
      (by rw [padDigits_length, padDigits_length]) _ _
  rw [ed]
  refine lex_append_left _ _ ?_ _
  refine lex_append_left _ _ ?_ ['T']
  rcases h with h | ⟨eh, h⟩
  · exact lex_append_of_lex (padDigits_lt 2 _ _ h (by simpa using hh))
      (by rw [padDigits_length, padDigits_length]) _ _
  rw [eh]
  refine lex_append_left _ _ ?_ _
  rcases h with h | ⟨emi, h⟩
  · exact lex_append_of_lex (padDigits_lt 2 _ _ h (by simpa using hmi))
      (by rw [padDigits_length, padDigits_length]) _ _
  rw [emi]
  refine lex_append_left _ _ ?_ _
  exact lex_append_of_lex (padDigits_lt 2 _ _ h (by simpa using hs))
    (by rw [padDigits_length, padDigits_length]) _ _

/-- C9 counterexample: chronological precedence does not imply lexically
smaller identifiers.  Two saves within the same second — the first 400
nanoseconds before the second — draw random suffixes `"ff"` and `"00"`;
the earlier save's identifier sorts lexically *after* the later one's. -/
theorem image_id_same_second_not_lex_ordered_cex :
    happensBefore ⟨2025, 1, 1, 0, 0, 0, 100, "ff"⟩ ⟨2025, 1, 1, 0, 0, 0, 500, "00"⟩ ∧
    ¬ lexLt (image_id ⟨2025, 1, 1, 0, 0, 0, 100, "ff"⟩)
        (image_id ⟨2025, 1, 1, 0, 0, 0, 500, "00"⟩) ∧
    lexLt (image_id ⟨2025, 1, 1, 0, 0, 0, 500, "00"⟩)
        (image_id ⟨2025, 1, 1, 0, 0, 0, 100, "ff"⟩) :=
  ⟨by decide, by decide, by decide⟩

/-- C9 (amended): identifiers returned by `save_new` sort lexically in
chronological order whenever the two saves' timestamps differ at second
resolution — the granularity the identifier records; within one second the
random suffix decides the order.  The calendar-field bounds hold for every
real `datetime` (year ≤ 9999, remaining fields two digits). -/
theorem image_id_lex_orders_distinct_seconds (t1 t2 : SaveInstant)
    (hy : t2.year < 10000) (hmo : t2.month < 100) (hd : t2.day < 100)
    (hh : t2.hour < 100) (hmi : t2.minute < 100) (hs : t2.second < 100)
    (h : secondsLt t1 t2) :
    lexLt (image_id t1) (image_id t2) := by
  unfold lexLt image_id
  exact lex_append_of_lex (timestampChars_lt t1 t2 hy hmo hd hh hmi hs h)
    (by rw [timestampChars_length, timestampChars_length]) _ _

/-- C9 witness: two saves one second apart, with adversarial suffixes, and
the earlier identifier still sorts first. -/
theorem image_id_lex_orders_distinct_seconds_witness :
    secondsLt ⟨2025, 3, 5, 10, 59, 59, 900, "zz"⟩ ⟨2025, 3, 5, 11, 0, 0, 100, "00"⟩ ∧
    lexLt (image_id ⟨2025, 3, 5, 10, 59, 59, 900, "zz"⟩)
        (image_id ⟨2025, 3, 5, 11, 0, 0, 100, "00"⟩) :=
  ⟨by decide,
    image_id_lex_orders_distinct_seconds ⟨2025, 3, 5, 10, 59, 59, 900, "zz"⟩
      ⟨2025, 3, 5, 11, 0, 0, 100, "00"⟩ (by decide) (by decide) (by decide) (by decide)
      (by decide) (by decide) (by decide)⟩

/-! ### C4: strict legal abort and the write trace -/

/-- When the hero-acquisition step does not raise (always-new mode,
reuse-most-recent mode, or reuse-by-id with a present, found identifier),
it returns a source tag and writes at most generated-store saves. -/
theorem loadReusedOrGenerateBase_ok_shape (cfg : PipeConfig) (p : PipeProduct)
    (hload : cfg.generatedImageMode = "new" ∨ cfg.generatedImageMode = "last" ∨
      (cfg.generatedImageMode = "id" ∧ cfg.generatedImageId ≠ none ∧
        cfg.idFoundInStore = true)) :
    ∃ src evs, loadReusedOrGenerateBase cfg p = .ok (src, evs) ∧
      ∀ e ∈ evs, ∃ pid, e = WriteEvent.storeGenerated pid := by
  unfold loadReusedOrGenerateBase
  by_cases hh : p.heroOnDisk = true
  · rw [if_pos hh]
    exact ⟨"reused", [], rfl, by simp⟩
  · rw [if_neg hh]
    rcases hload with hm | hm | ⟨hm, hid, hfound⟩
    · rw [hm]
      refine ⟨"generated_new", _, by rfl, ?_⟩
      intro e he
      by_cases hd : cfg.dryRun = true
      · rw [hd] at he
        exact absurd he (by simp)
      · rw [Bool.not_eq_true] at hd
        rw [hd] at he
        simp only [if_false, Bool.false_eq_true, List.mem_singleton] at he
        exact ⟨p.id, he⟩
    · rw [hm]
      by_cases hl : p.hasLastStored = true
      · rw [hl]
        exact ⟨"generated_last", [], rfl, by simp⟩
      · rw [Bool.not_eq_true] at hl
        rw [hl]
        refine ⟨"generated_new", _, by rfl, ?_⟩
        intro e he
        by_cases hd : cfg.dryRun = true
        · rw [hd] at he
          exact absurd he (by simp)
        · rw [Bool.not_eq_true] at hd
          rw [hd] at he
          simp only [if_false, Bool.false_eq_true, List.mem_singleton] at he
          exact ⟨p.id, he⟩
    · rw [hm]
      obtain ⟨i, hi⟩ := Option.ne_none_iff_exists'.mp hid
      rw [hi]
      simp only [Bool.and_self, if_false, Bool.false_eq_true]
      rw [hfound]
      exact ⟨"generated_id", [], rfl, by simp⟩

/-- C4 counterexample: under a strict legal policy with the blocked phrase
present only in the campaign message, a non-dry run in always-new mode
aborts with a compliance violation — but only after `store.save_new` has
already persisted the first product's freshly generated hero, so a stored
generated image *does* exist on disk when the run terminates. -/
theorem pipeline_stored_image_before_abort_cex :
    runPipelineModel (some ⟨"warn", ⟨["free money"], []⟩, []⟩) trivialRegexSem
      ⟨true, false, false, "new", none, false⟩ false (fun _ _ => false)
      "Get FreeMoney instantly" (fun m _ => m) ["en"]
      [⟨"p1", "clean promo one", false, false⟩, ⟨"p2", "clean promo two", false, false⟩]
    = ([.storeGenerated "p1"], .error .complianceViolation) := by
  decide

/-- C4 (amended): under a strict legal policy whose blocked phrase is in
the campaign message and in no generation prompt, the run aborts with a
compliance violation — at the first product's first ratio × locale message
check — before any output variant, manifest or metrics file is written;
the only writes that may precede the abort are generated-store saves of a
freshly generated hero. -/
theorem pipeline_strict_legal_aborts_before_output_writes
    (sem : RegexSem) (pol : LegalPolicy) (cfg : PipeConfig)
    (brandConfigured : Bool) (brandViolates : String → String → Bool)
    (msg : String) (translate : String → String → String)
    (restLocales : List String) (p : PipeProduct) (rest : List PipeProduct)
    (hstrict : cfg.strictLegal = true)
    (hload : cfg.generatedImageMode = "new" ∨ cfg.generatedImageMode = "last" ∨
      (cfg.generatedImageMode = "id" ∧ cfg.generatedImageId ≠ none ∧
        cfg.idFoundInStore = true))
    (hprompt : (evaluate_legal_text sem p.promptText "en" pol true).should_block = false)
    (hmsg : (evaluate_legal_text sem msg "en" pol true).should_block = true) :
    ∃ evs, runPipelineModel (some pol) sem cfg brandConfigured brandViolates msg translate
        ("en" :: restLocales) (p :: rest)
      = (evs, .error .complianceViolation) ∧
      ∀ e ∈ evs, ∃ pid, e = WriteEvent.storeGenerated pid := by
  obtain ⟨src, levs, hld, hevs⟩ := loadReusedOrGenerateBase_ok_shape cfg p hload
  refine ⟨levs, ?_, hevs⟩
  unfold runPipelineModel productLoop processProduct
  rw [hld]
  dsimp only
  rw [hstrict, hprompt]
  simp only [Bool.false_eq_true, if_false]
  unfold targetVariantKeys ratioLoop localeLoop
  dsimp only
  have hloc : (if ("en" == "en") = true then msg else translate msg "en") = msg := rfl
  rw [hloc, hstrict, hmsg]
  simp

/-- C4 witness: the strict-legal blocked-message scenario of the test
suite (non-dry run, always-new mode, two products with clean prompts)
satisfies every hypothesis, and the run aborts with a compliance violation
having written at most generated-store saves. -/
theorem pipeline_strict_legal_aborts_before_output_writes_witness :
    ∃ evs, runPipelineModel (some ⟨"warn", ⟨["free money"], []⟩, []⟩) trivialRegexSem
        ⟨true, false, false, "new", none, false⟩ false (fun _ _ => false)
        "Get FreeMoney instantly" (fun m _ => m) ("en" :: [])
        (⟨"p1", "clean promo one", false, false⟩ ::
          [⟨"p2", "clean promo two", false, false⟩])
      = (evs, .error .complianceViolation) ∧
      ∀ e ∈ evs, ∃ pid, e = WriteEvent.storeGenerated pid :=
  pipeline_strict_legal_aborts_before_output_writes trivialRegexSem
    ⟨"warn", ⟨["free money"], []⟩, []⟩ ⟨true, false, false, "new", none, false⟩ false
    (fun _ _ => false) "Get FreeMoney instantly" (fun m _ => m) []
    ⟨"p1", "clean promo one", false, false⟩ [⟨"p2", "clean promo two", false, false⟩]
    rfl (Or.inl rfl) (by decide) (by decide)

/-! ### C5: asset reuse/generation counting -/

/-- C5 counterexample: a hero obtained in reuse-most-recent mode has
`hero_source = "generated_last"` — a generation mode per the claim — yet
the product contributes `assets_reused = 1` and `assets_generated = 0`:
the code counts `generated_last` (and `generated_id`) as *reused*. -/
theorem metrics_generated_last_counted_as_reused_cex :
    (processProduct none trivialRegexSem ⟨false, false, true, "last", none, false⟩ false
      (fun _ _ => false) "headline" (fun m _ => m) ["en"] ⟨"p1", "x", false, true⟩).2
    = .ok ⟨"generated_last", 1, 0, 3⟩ := by
  decide

/-- C5 (amended): every processed product contributes exactly one of
`assets_reused` / `assets_generated`, but the classification counts a hero
from reuse *or* from the `generated_last` / `generated_id` store-reuse
modes as reused, and only `generated_new` as generated; in particular a
2-product run with no pre-existing assets in always-new mode yields
`assets_reused = 0` and `assets_generated = 2`. -/
theorem metrics_hero_source_reuse_classification
    (legalPolicy : Option LegalPolicy) (sem : RegexSem) (cfg : PipeConfig)
    (brandConfigured : Bool) (brandViolates : String → String → Bool)
    (msg : String) (translate : String → String → String)
    (locales : List String) (p : PipeProduct) (evs : List WriteEvent) (o : ProductOutcome)
    (h : processProduct legalPolicy sem cfg brandConfigured brandViolates msg translate
        locales p = (evs, .ok o)) :
    (o.assetsReused = if o.heroSource = "reused" ∨ o.heroSource = "generated_last" ∨
        o.heroSource = "generated_id" then 1 else 0) ∧
    o.assetsGenerated = 1 - o.assetsReused ∧
    (runPipelineModel none trivialRegexSem ⟨false, false, false, "new", none, false⟩ false
        (fun _ _ => false) "headline" (fun m _ => m) ["en"]
        [⟨"p1", "promo one", false, false⟩, ⟨"p2", "promo two", false, false⟩]).2
      = .ok ⟨2, 0, 2, 6⟩ := by
  have key : ∃ src n, o = ⟨src,
      (if (src == "reused" || src == "generated_last" || src == "generated_id") = true
        then 1 else 0),
      1 - (if (src == "reused" || src == "generated_last" || src == "generated_id") = true
        then 1 else 0), n⟩ := by
    unfold processProduct at h
    cases hld : loadReusedOrGenerateBase cfg p with
    | error k =>
      rw [hld] at h
      simp [Prod.ext_iff] at h
    | ok pair =>
      obtain ⟨src, levs⟩ := pair
      rw [hld] at h
      dsimp only at h
      split at h
      · simp [Prod.ext_iff] at h
      · rcases hrl : ratioLoop legalPolicy sem cfg brandConfigured brandViolates msg
            translate p locales targetVariantKeys with ⟨evs2, res2⟩
        rw [hrl] at h
        cases res2 with
        | error k =>
          simp [Prod.ext_iff] at h
        | ok n =>
          simp only [Prod.ext_iff, Except.ok.injEq] at h
          exact ⟨src, n, h.2.symm⟩
  obtain ⟨src, n, ho⟩ := key
  subst ho
  refine ⟨?_, rfl, by decide⟩
  dsimp only
  by_cases hs : src = "reused" ∨ src = "generated_last" ∨ src = "generated_id"
  · rw [if_pos hs]
    rcases hs with h1 | h1 | h1 <;> simp [h1]
  · rw [if_neg hs]
    push_neg at hs
    simp [beq_iff_eq, hs.1, hs.2.1, hs.2.2]

/-- C5 witness: the reuse-most-recent product outcome instantiates the
classification — `generated_last` is counted on the reused side, and the
counters are complementary. -/
theorem metrics_hero_source_reuse_classification_witness :
    ((⟨"generated_last", 1, 0, 3⟩ : ProductOutcome).assetsReused
      = if (⟨"generated_last", 1, 0, 3⟩ : ProductOutcome).heroSource = "reused" ∨
          (⟨"generated_last", 1, 0, 3⟩ : ProductOutcome).heroSource = "generated_last" ∨
          (⟨"generated_last", 1, 0, 3⟩ : ProductOutcome).heroSource = "generated_id"
        then 1 else 0) ∧
    (⟨"generated_last", 1, 0, 3⟩ : ProductOutcome).assetsGenerated
      = 1 - (⟨"generated_last", 1, 0, 3⟩ : ProductOutcome).assetsReused ∧
    (runPipelineModel none trivialRegexSem ⟨false, false, false, "new", none, false⟩ false
        (fun _ _ => false) "headline" (fun m _ => m) ["en"]
        [⟨"p1", "promo one", false, false⟩, ⟨"p2", "promo two", false, false⟩]).2
      = .ok ⟨2, 0, 2, 6⟩ :=
  metrics_hero_source_reuse_classification none trivialRegexSem
    ⟨false, false, true, "last", none, false⟩ false (fun _ _ => false) "headline"
    (fun m _ => m) ["en"] ⟨"p1", "x", false, true⟩ [] ⟨"generated_last", 1, 0, 3⟩
    (by decide)

/-! ### C7: bounds of the adaptive font fit -/

/-- The binary search never returns below an initial best that bounds the
search interval from below. -/
theorem fontSearch_ge (fits : Int → Bool) :
    ∀ low high best : Int, best ≤ low → best ≤ fontSearch fits low high best
  | low, high, best, hb => by
    rw [fontSearch.eq_def]
    by_cases hlh : low ≤ high
    · rw [dif_pos hlh]
      dsimp only
      by_cases hf : fits ((low + high) / 2) = true
      · rw [if_pos hf]
        refine le_trans (show best ≤ (low + high) / 2 by omega) ?_
        exact fontSearch_ge fits ((low + high) / 2 + 1) high ((low + high) / 2) (by omega)
      · rw [if_neg hf]
        exact fontSearch_ge fits low ((low + high) / 2 - 1) best hb
    · rw [dif_neg hlh]
  termination_by low high _ => (high + 1 - low).toNat
  decreasing_by all_goals omega

/-- The binary search never exceeds the initial best and the upper end. -/
theorem fontSearch_le_max (fits : Int → Bool) :
    ∀ low high best : Int, fontSearch fits low high best ≤ max best high
  | low, high, best => by
    rw [fontSearch.eq_def]
    by_cases hlh : low ≤ high
    · rw [dif_pos hlh]
      dsimp only
      by_cases hf : fits ((low + high) / 2) = true
      · rw [if_pos hf]
        refine le_trans (fontSearch_le_max fits ((low + high) / 2 + 1) high ((low + high) / 2)) ?_
        have h1 : (low + high) / 2 ≤ high := by omega
        exact le_trans (max_le h1 le_rfl) (le_max_right best high)
      · rw [if_neg hf]
        refine le_trans (fontSearch_le_max fits low ((low + high) / 2 - 1) best) ?_
        exact max_le_max le_rfl (by omega)
    · rw [dif_neg hlh]
      exact le_max_left best high
  termination_by low high _ => (high + 1 - low).toNat
  decreasing_by all_goals omega

/-- The binary search returns either its initial best or a fitting size. -/
theorem fontSearch_inv (fits : Int → Bool) (b0 : Int) :
    ∀ low high best : Int, (fits best = true ∨ best = b0) →
      fits (fontSearch fits low high best) = true ∨ fontSearch fits low high best = b0
  | low, high, best, hb => by
    rw [fontSearch.eq_def]
    by_cases hlh : low ≤ high
    · rw [dif_pos hlh]
      dsimp only
      by_cases hf : fits ((low + high) / 2) = true
      · rw [if_pos hf]
        exact fontSearch_inv fits b0 ((low + high) / 2 + 1) high ((low + high) / 2) (Or.inl hf)
      · rw [if_neg hf]
        exact fontSearch_inv fits b0 low ((low + high) / 2 - 1) best hb
    · rw [dif_neg hlh]
      exact hb
  termination_by low high _ => (high + 1 - low).toNat
  decreasing_by all_goals omega

/-- When no size at or above the lower end fits, the binary search returns
its initial best unchanged. -/
theorem fontSearch_all_false (fits : Int → Bool) :
    ∀ low high best : Int, (∀ s, low ≤ s → fits s = false) →
      fontSearch fits low high best = best
  | low, high, best, hall => by
    rw [fontSearch.eq_def]
    by_cases hlh : low ≤ high
    · rw [dif_pos hlh]
      dsimp only
      rw [if_neg (by rw [hall ((low + high) / 2) (by omega)]; exact Bool.false_ne_true)]
      exact fontSearch_all_false fits low ((low + high) / 2 - 1) best hall
    · rw [dif_neg hlh]
  termination_by low high _ => (high + 1 - low).toNat
  decreasing_by all_goals omega

/-- When every size fits, the binary search climbs to the upper end. -/
theorem fontSearch_all_true (fits : Int → Bool) :
    ∀ low high best : Int, low ≤ high → (∀ s, fits s = true) →
      fontSearch fits low high best = high
  | low, high, best, hlh, hall => by
    rw [fontSearch.eq_def, dif_pos hlh]
    dsimp only
    rw [if_pos (hall ((low + high) / 2))]
    by_cases hnext : (low + high) / 2 + 1 ≤ high
    · exact fontSearch_all_true fits ((low + high) / 2 + 1) high ((low + high) / 2) hnext hall
    · have hm : (low + high) / 2 = high := by omega
      rw [hm, fontSearch.eq_def, dif_neg (by omega)]
  termination_by low high _ _ => (high + 1 - low).toNat
  decreasing_by all_goals omega

/-- C7: for every font-metrics oracle, message and panel geometry, the
chosen font size is at least `MIN_MESSAGE_FONT_SIZE_PX`; whenever the
chosen size is strictly above the minimum, the wrapped message's total
height at the chosen size fits within the text-box height; and when the
height is antitone in font size (true of real fonts) yet even the minimum
size overflows, the minimum size is still returned — the function is
total, so no failure is raised. -/
theorem choose_fitting_font_size_bounds (m : FontMetrics) (message : String)
    (maxW maxH : Int) :
    MIN_MESSAGE_FONT_SIZE_PX ≤ choose_fitting_font_size m message maxW maxH ∧
    (MIN_MESSAGE_FONT_SIZE_PX < choose_fitting_font_size m message maxW maxH →
      ((wrapped_text_total_height
          (m.lineHeight (choose_fitting_font_size m message maxW maxH))
          (wrap_text (m.width (choose_fitting_font_size m message maxW maxH))
            message maxW).length : Int) ≤ maxH)) ∧
    ((∀ s t : Int, s ≤ t → fitsAt m message maxW maxH t = true →
        fitsAt m message maxW maxH s = true) →
      fitsAt m message maxW maxH MIN_MESSAGE_FONT_SIZE_PX = false →
      choose_fitting_font_size m message maxW maxH = MIN_MESSAGE_FONT_SIZE_PX) := by
  refine ⟨?_, ?_, ?_⟩
  · exact fontSearch_ge _ _ _ _ le_rfl
  · intro hgt
    rcases fontSearch_inv (fitsAt m message maxW maxH) MIN_MESSAGE_FONT_SIZE_PX
        MIN_MESSAGE_FONT_SIZE_PX
        (max MIN_MESSAGE_FONT_SIZE_PX ((maxH * 45) / 100)) MIN_MESSAGE_FONT_SIZE_PX
        (Or.inr rfl) with hfit | heq
    · exact of_decide_eq_true hfit
    · exact absurd heq (by exact fun he => absurd (he ▸ hgt) (lt_irrefl _))
  · intro hmono hmin
    refine fontSearch_all_false _ _ _ _ ?_
    intro s hs
    cases hfs : fitsAt m message maxW maxH s with
    | false => rfl
    | true => exact absurd (hmono MIN_MESSAGE_FONT_SIZE_PX s hs hfs) (by rw [hmin]; simp)

/-- C7 witness: with constant metrics everything fits, the search returns
the upper candidate 45 > 24 and the height bound holds; with a negative
box height nothing fits, the antitone hypothesis holds, and the minimum
size 24 is returned. -/
theorem choose_fitting_font_size_bounds_witness :
    (MIN_MESSAGE_FONT_SIZE_PX <
      choose_fitting_font_size ⟨fun _ _ => 0, fun _ => 1⟩ "hi" 100 100 ∧
      ((wrapped_text_total_height
          ((⟨fun _ _ => 0, fun _ => 1⟩ : FontMetrics).lineHeight
            (choose_fitting_font_size ⟨fun _ _ => 0, fun _ => 1⟩ "hi" 100 100))
          (wrap_text ((⟨fun _ _ => 0, fun _ => 1⟩ : FontMetrics).width
            (choose_fitting_font_size ⟨fun _ _ => 0, fun _ => 1⟩ "hi" 100 100))
            "hi" 100).length : Int) ≤ 100)) ∧
    (fitsAt ⟨fun _ _ => 0, fun _ => 1⟩ "hi" 100 (-1) MIN_MESSAGE_FONT_SIZE_PX = false ∧
      choose_fitting_font_size ⟨fun _ _ => 0, fun _ => 1⟩ "hi" 100 (-1)
        = MIN_MESSAGE_FONT_SIZE_PX) := by
  have hallfit : ∀ s : Int, fitsAt ⟨fun _ _ => 0, fun _ => 1⟩ "hi" 100 100 s = true := by
    intro s
    show decide ((wrapped_text_total_height 1
      (wrap_text (fun _ => 0) "hi" 100).length : Int) ≤ 100) = true
    decide
  have hnofit : ∀ s : Int, fitsAt ⟨fun _ _ => 0, fun _ => 1⟩ "hi" 100 (-1) s = false := by
    intro s
    show decide ((wrapped_text_total_height 1
      (wrap_text (fun _ => 0) "hi" 100).length : Int) ≤ -1) = false
    decide
  have hc45 : choose_fitting_font_size ⟨fun _ _ => 0, fun _ => 1⟩ "hi" 100 100 = 45 := by
    unfold choose_fitting_font_size
    rw [fontSearch_all_true _ _ _ _ (by decide) hallfit]
    decide
  refine ⟨⟨?_, ?_⟩, ?_⟩
  · rw [hc45]
    decide
  · exact (choose_fitting_font_size_bounds ⟨fun _ _ => 0, fun _ => 1⟩ "hi" 100 100).2.1
      (by rw [hc45]; decide)
  · exact ⟨hnofit MIN_MESSAGE_FONT_SIZE_PX,
      (choose_fitting_font_size_bounds ⟨fun _ _ => 0, fun _ => 1⟩ "hi" 100 (-1)).2.2
        (by intro s t _ hft; rw [hnofit t] at hft; exact absurd hft (by simp))
        (hnofit MIN_MESSAGE_FONT_SIZE_PX)⟩

/-! ### C8: word-splitting and wrapping lemmas -/

/-- Every word `pySplitAux` produces is nonempty and whitespace-free. -/
theorem pySplitAux_clean :
    ∀ (l acc : List Char), (∀ c ∈ acc, isPySpaceB c = false) →
      ∀ w ∈ pySplitAux l acc, CleanWord w
  | [], acc, hacc => by
    unfold pySplitAux
    by_cases he : acc.isEmpty = true
    · rw [if_pos he]
      intro w hw
      exact absurd hw (List.not_mem_nil w)
    · rw [if_neg he]
      intro w hw
      rcases List.mem_singleton.mp hw with rfl
      refine ⟨?_, ?_⟩
      · simp only [Bool.not_eq_true] at he
        intro hx
        rw [show (String.mk acc.reverse).data = acc.reverse from rfl] at hx
        rcases acc with _ | ⟨a, as⟩
        · simp at he
        · exact absurd hx (by simp)
      · intro c hc
        rw [show (String.mk acc.reverse).data = acc.reverse from rfl] at hc
        exact hacc c (List.mem_reverse.mp hc)
  | c :: cs, acc, hacc => by
    unfold pySplitAux
    by_cases hws : isPySpaceB c = true
    · rw [if_pos hws]
      by_cases he : acc.isEmpty = true
      · rw [if_pos he]
        exact pySplitAux_clean cs [] (by simp)
      · rw [if_neg he]
        intro w hw
        rcases List.mem_cons.mp hw with rfl | htail
        · refine ⟨?_, ?_⟩
          · simp only [Bool.not_eq_true] at he
            intro hx
            rw [show (String.mk acc.reverse).data = acc.reverse from rfl] at hx
            rcases acc with _ | ⟨a, as⟩
            · simp at he
            · exact absurd hx (by simp)
          · intro d hd
            rw [show (String.mk acc.reverse).data = acc.reverse from rfl] at hd
            exact hacc d (List.mem_reverse.mp hd)
        · exact pySplitAux_clean cs [] (by simp) w htail
    · rw [if_neg hws]
      refine pySplitAux_clean cs (c :: acc) ?_
      intro d hd
      rcases List.mem_cons.mp hd with rfl | hd'
      · simpa using hws
      · exact hacc d hd'

/-- Every word of `pySplit` is nonempty and whitespace-free. -/
theorem pySplit_clean (s : String) : ∀ w ∈ pySplit s, CleanWord w :=
  pySplitAux_clean s.data [] (by simp)

/-- Processing more characters from a nonempty accumulator extends the
first produced word on the right by whitespace-free characters. -/
theorem pySplitAux_extend :
    ∀ (ys acc : List Char), acc ≠ [] →
      ∃ τ rest, pySplitAux ys acc = (String.mk acc.reverse ++ τ) :: rest ∧
        ∀ c ∈ τ.data, isPySpaceB c = false
  | [], acc, hacc => by
    refine ⟨"", pySplitAux [] acc |>.tail, ?_, by simp⟩
    unfold pySplitAux
    rw [if_neg (by simpa [listIsEmpty_true_iff] using hacc)]
    simp
  | c :: cs, acc, hacc => by
    unfold pySplitAux
    by_cases hws : isPySpaceB c = true
    · rw [if_pos hws, if_neg (by simpa [listIsEmpty_true_iff] using hacc)]
      exact ⟨"", pySplitAux cs [], by simp, by simp⟩
    · rw [if_neg hws]
      obtain ⟨τ', rest, heq, hτ'⟩ := pySplitAux_extend cs (c :: acc) (by simp)
      refine ⟨String.mk [c] ++ τ', rest, ?_, ?_⟩
      · rw [heq]
        have hrev : (c :: acc).reverse = acc.reverse ++ [c] := by simp
        rw [hrev]
        rw [show String.mk (acc.reverse ++ [c]) = String.mk acc.reverse ++ String.mk [c]
          from rfl]
        rw [String.append_assoc]
      · intro d hd
        rw [String.data_append] at hd
        rcases List.mem_append.mp hd with hd1 | hd2
        · rcases List.mem_singleton.mp hd1 with rfl
          simpa using hws
        · exact hτ' d hd2

/-- `ExtendedWords` is stable under prepending a common word. -/
theorem extendedWords_cons (x : String) {b f : List String} (h : ExtendedWords b f) :
    ExtendedWords (x :: b) (x :: f) := by
  rcases h with ⟨extra, rfl⟩ | ⟨pre, w, τ, extra, rfl, rfl, hτ⟩
  · exact Or.inl ⟨extra, rfl⟩
  · exact Or.inr ⟨x :: pre, w, τ, extra, rfl, rfl, hτ⟩

/-- Splitting a text extended on the right yields the original words,
possibly with the last word extended and further words appended. -/
theorem pySplitAux_append_decompose :
    ∀ (xs ys acc : List Char), ExtendedWords (pySplitAux xs acc) (pySplitAux (xs ++ ys) acc)
  | [], ys, acc => by
    rw [List.nil_append]
    by_cases he : acc.isEmpty = true
    · rcases listIsEmpty_true_iff.mp he with rfl
      rw [show pySplitAux [] ([] : List Char) = [] from rfl]
      exact Or.inl ⟨pySplitAux ys [], by simp⟩
    · have hne : acc ≠ [] := by simpa [listIsEmpty_true_iff] using he
      obtain ⟨τ, rest, heq, hτ⟩ := pySplitAux_extend ys acc hne
      rw [heq]
      have hbase : pySplitAux [] acc = [String.mk acc.reverse] := by
        unfold pySplitAux
        rw [if_neg he]
      rw [hbase]
      exact Or.inr ⟨[], String.mk acc.reverse, τ, rest, rfl, rfl, hτ⟩
  | c :: cs, ys, acc => by
    rw [List.cons_append]
    unfold pySplitAux
    by_cases hws : isPySpaceB c = true
    · rw [if_pos hws, if_pos hws]
      by_cases he : acc.isEmpty = true
      · rw [if_pos he, if_pos he]
        exact pySplitAux_append_decompose cs ys []
      · rw [if_neg he, if_neg he]
        exact extendedWords_cons _ (pySplitAux_append_decompose cs ys [])
    · rw [if_neg hws, if_neg hws]
      exact pySplitAux_append_decompose cs ys (c :: acc)

/-- Pushing a character yields a nonempty string. -/
theorem push_beq_empty_false (s : String) (c : Char) : (s.push c == "") = false := by
  apply beq_eq_false_iff_ne.mpr
  intro h
  have hd := congrArg String.data h
  rw [String.data_push, show ("" : String).data = [] from rfl] at hd
  simp at hd

/-- The chunk splitter returns at least one chunk whenever the running
chunk is nonempty. -/
theorem splitOversizedAux_len_lower (width : String → Int) (maxW : Int) :
    ∀ (cs : List Char) (cur : String),
      (if (cur == "") = true then 0 else 1) ≤ (splitOversizedAux width maxW cs cur).length
  | [], cur => by
    unfold splitOversizedAux
    by_cases he : (cur == "") = true
    · rw [if_pos he, if_pos he]
      exact Nat.zero_le _
    · rw [if_neg he, if_neg he]
      simp
  | c :: cs, cur => by
    unfold splitOversizedAux
    dsimp only
    by_cases hcond : (decide (width (cur.push c) ≤ maxW) || (cur == "")) = true
    · rw [if_pos hcond]
      have h := splitOversizedAux_len_lower width maxW cs (cur.push c)
      rw [push_beq_empty_false] at h
      simp only [Bool.false_eq_true, if_false] at h
      exact le_trans (by split <;> omega) h
    · rw [if_neg hcond]
      simp only [List.length_cons]
      split <;> omega

/-- The chunk splitter's output only grows when more characters follow. -/
theorem splitOversizedAux_append_mono (width : String → Int) (maxW : Int) :
    ∀ (cs ds : List Char) (cur : String),
      (splitOversizedAux width maxW cs cur).length ≤
        (splitOversizedAux width maxW (cs ++ ds) cur).length
  | [], ds, cur => by
    rw [List.nil_append]
    have hbase : (splitOversizedAux width maxW [] cur).length
        = if (cur == "") = true then 0 else 1 := by
      unfold splitOversizedAux
      split <;> rfl
    rw [hbase]
    exact splitOversizedAux_len_lower width maxW ds cur
  | c :: cs, ds, cur => by
    rw [List.cons_append]
    unfold splitOversizedAux
    dsimp only
    by_cases hcond : (decide (width (cur.push c) ≤ maxW) || (cur == "")) = true
    · rw [if_pos hcond, if_pos hcond]
      exact splitOversizedAux_append_mono width maxW cs ds (cur.push c)
    · rw [if_neg hcond, if_neg hcond]
      simp only [List.length_cons]
      exact Nat.succ_le_succ (splitOversizedAux_append_mono width maxW cs ds (String.mk [c]))

/-- Splitting a nonempty oversized word yields at least one chunk. -/
theorem splitOversizedAux_word_pos (width : String → Int) (maxW : Int) (w : List Char)
    (hw : w ≠ []) : 1 ≤ (splitOversizedAux width maxW w "").length := by
  rcases w with _ | ⟨c, cs⟩
  · exact absurd rfl hw
  · unfold splitOversizedAux
    dsimp only
    rw [if_pos (by simp)]
    have h := splitOversizedAux_len_lower width maxW cs ("".push c)
    rw [push_beq_empty_false] at h
    simpa using h

/-- With no words left, the wrapper flushes at most the running line. -/
theorem wrapWordsAux_nil_len (width : String → Int) (maxW : Int) (cur : List String) :
    (wrapWordsAux width maxW [] cur).length = if cur.isEmpty = true then 0 else 1 := by
  unfold wrapWordsAux
  split <;> rfl

/-- A nonempty running line guarantees at least one output line. -/
theorem wrapWordsAux_len_pos (width : String → Int) (maxW : Int) :
    ∀ (ws cur : List String), cur ≠ [] → 1 ≤ (wrapWordsAux width maxW ws cur).length
  | [], cur, hc => by
    rw [wrapWordsAux_nil_len, if_neg (by simpa [listIsEmpty_true_iff] using hc)]
  | w :: ws, cur, hc => by
    unfold wrapWordsAux
    dsimp only
    by_cases h1 : width (pyStrip (joinSpace (cur ++ [w]))) ≤ maxW
    · rw [if_pos h1]
      exact wrapWordsAux_len_pos width maxW ws (cur ++ [w]) (by simp)
    · rw [if_neg h1, if_neg (by simpa [listIsEmpty_true_iff] using hc)]
      simp

/-- Appending further words never shrinks the number of wrapped lines. -/
theorem wrapWordsAux_append_mono (width : String → Int) (maxW : Int) :
    ∀ (ws extra cur : List String),
      (wrapWordsAux width maxW ws cur).length ≤
        (wrapWordsAux width maxW (ws ++ extra) cur).length
  | [], extra, cur => by
    rw [List.nil_append, wrapWordsAux_nil_len]
    by_cases he : cur.isEmpty = true
    · rw [if_pos he]
      exact Nat.zero_le _
    · rw [if_neg he]
      exact wrapWordsAux_len_pos width maxW extra cur
        (by simpa [listIsEmpty_true_iff] using he)
  | w :: ws, extra, cur => by
    rw [List.cons_append]
    unfold wrapWordsAux
    dsimp only
    by_cases h1 : width (pyStrip (joinSpace (cur ++ [w]))) ≤ maxW
    · rw [if_pos h1, if_pos h1]
      exact wrapWordsAux_append_mono width maxW ws extra (cur ++ [w])
    · rw [if_neg h1, if_neg h1]
      by_cases h2 : cur.isEmpty = true
      · rw [if_pos h2, if_pos h2]
        rw [List.length_append, List.length_append]
        exact Nat.add_le_add_left (wrapWordsAux_append_mono width maxW ws extra []) _
      · rw [if_neg h2, if_neg h2]
        simp only [List.length_cons]
        exact Nat.succ_le_succ (wrapWordsAux_append_mono width maxW ws extra [w])

/-- `dropWhile` is the identity when the head is not whitespace. -/
theorem dropWhile_id_of_head (l : List Char)
    (hh : ∀ c, l.head? = some c → isPySpaceB c = false) :
    l.dropWhile isPySpaceB = l := by
  cases l with
  | nil => rfl
  | cons c cs =>
    rw [List.dropWhile_cons, if_neg (by simp [hh c rfl])]

/-- Stripping is the identity on lists with non-whitespace ends. -/
theorem pyStripList_noop (l : List Char)
    (hh : ∀ c, l.head? = some c → isPySpaceB c = false)
    (hl : ∀ c, l.getLast? = some c → isPySpaceB c = false) :
    pyStripList l = l := by
  unfold pyStripList
  rw [dropWhile_id_of_head l hh]
  rw [dropWhile_id_of_head l.reverse
    (by intro c hc; exact hl c (by rwa [List.head?_reverse] at hc))]
  exact List.reverse_reverse l

/-- An element named by `head?` belongs to the list. -/
theorem mem_of_head?_eq {α : Type} {l : List α} {a : α} (h : l.head? = some a) : a ∈ l := by
  cases l with
  | nil => simp at h
  | cons x xs =>
    simp only [List.head?_cons, Option.some.injEq] at h
    rw [← h]
    exact List.mem_cons_self x xs

/-- An element named by `getLast?` belongs to the list. -/
theorem mem_of_getLast?_eq {α : Type} {l : List α} {a : α} (h : l.getLast? = some a) :
    a ∈ l := by
  have h' : l.reverse.head? = some a := by rwa [List.head?_reverse]
  exact List.mem_reverse.mp (mem_of_head?_eq h')

/-- Joining clean words yields a nonempty character list. -/
theorem joinSpace_data_ne_nil :
    ∀ (ws : List String), ws ≠ [] → (∀ w ∈ ws, CleanWord w) → (joinSpace ws).data ≠ []
  | [], hne, _ => absurd rfl hne
  | [w], _, h => by
    rw [show joinSpace [w] = w from rfl]
    exact (h w (by simp)).1
  | w :: v :: vs, _, h => by
    rw [show joinSpace (w :: v :: vs) = w ++ (" " ++ joinSpace (v :: vs)) from
      (String.append_assoc w " " (joinSpace (v :: vs)))]
    rw [String.data_append]
    intro hx
    exact (h w (by simp)).1 (List.append_eq_nil.mp hx).1

/-- The first character of a clean join is not whitespace. -/
theorem joinSpace_data_head :
    ∀ (ws : List String), (∀ w ∈ ws, CleanWord w) →
      ∀ c, (joinSpace ws).data.head? = some c → isPySpaceB c = false
  | [], _ => by
    intro c hc
    rw [show (joinSpace []).data = [] from rfl] at hc
    simp at hc
  | [w], h => by
    intro c hc
    rw [show joinSpace [w] = w from rfl] at hc
    exact (h w (by simp)).2 c (mem_of_head?_eq hc)
  | w :: v :: vs, h => by
    intro c hc
    rw [show joinSpace (w :: v :: vs) = w ++ (" " ++ joinSpace (v :: vs)) from
      (String.append_assoc w " " (joinSpace (v :: vs)))] at hc
    rw [String.data_append, List.head?_append] at hc
    cases hdw : w.data.head? with
    | none =>
      rw [List.head?_eq_none_iff] at hdw
      exact absurd hdw (h w (by simp)).1
    | some a =>
      rw [hdw] at hc
      have hac : a = c := by simpa [Option.or] using hc
      subst hac
      exact (h w (by simp)).2 a (mem_of_head?_eq hdw)

/-- The last character of a clean join is not whitespace. -/
theorem joinSpace_data_last :
    ∀ (ws : List String), (∀ w ∈ ws, CleanWord w) →
      ∀ c, (joinSpace ws).data.getLast? = some c → isPySpaceB c = false
  | [], _ => by
    intro c hc
    rw [show (joinSpace []).data = [] from rfl] at hc
    simp at hc
  | [w], h => by
    intro c hc
    rw [show joinSpace [w] = w from rfl] at hc
    exact (h w (by simp)).2 c (mem_of_getLast?_eq hc)
  | w :: v :: vs, h => by
    intro c hc
    rw [show joinSpace (w :: v :: vs) = (w ++ " ") ++ joinSpace (v :: vs) from rfl] at hc
    rw [String.data_append, List.getLast?_append] at hc
    have hsub : ∀ x ∈ v :: vs, CleanWord x := fun x hx => h x (List.mem_cons_of_mem w hx)
    cases hdl : (joinSpace (v :: vs)).data.getLast? with
    | none =>
      rw [List.getLast?_eq_none_iff] at hdl
      exact absurd hdl (joinSpace_data_ne_nil (v :: vs) (by simp) hsub)
    | some a =>
      rw [hdl] at hc
      have hac : a = c := by simpa [Option.or] using hc
      subst hac
      exact joinSpace_data_last (v :: vs) hsub a hdl

/-- Stripping a clean space-join is the identity. -/
theorem pyStrip_joinSpace_noop (ws : List String) (h : ∀ w ∈ ws, CleanWord w) :
    pyStrip (joinSpace ws) = joinSpace ws := by
  unfold pyStrip
  rw [pyStripList_noop _ (joinSpace_data_head ws h) (joinSpace_data_last ws h)]

/-- Extending the final word extends the join on the right. -/
theorem joinSpace_extend_last :
    ∀ (cur : List String) (w τ : String),
      joinSpace (cur ++ [w ++ τ]) = joinSpace (cur ++ [w]) ++ τ
  | [], _, _ => rfl
  | [x], w, τ => by
    rw [show ([x] ++ [w ++ τ]) = [x, w ++ τ] from rfl,
        show ([x] ++ [w]) = [x, w] from rfl,
        show joinSpace [x, w ++ τ] = x ++ " " ++ (w ++ τ) from rfl,
        show joinSpace [x, w] = x ++ " " ++ w from rfl]
    simp [String.append_assoc]
  | x :: y :: cur, w, τ => by
    rw [show ((x :: y :: cur) ++ [w ++ τ]) = x :: ((y :: cur) ++ [w ++ τ]) from rfl,
        show ((x :: y :: cur) ++ [w]) = x :: ((y :: cur) ++ [w]) from rfl]
    rw [show joinSpace (x :: ((y :: cur) ++ [w ++ τ]))
        = x ++ " " ++ joinSpace ((y :: cur) ++ [w ++ τ]) from rfl]
    rw [show joinSpace (x :: ((y :: cur) ++ [w]))
        = x ++ " " ++ joinSpace ((y :: cur) ++ [w]) from rfl]
    rw [joinSpace_extend_last (y :: cur) w τ]
    simp [String.append_assoc]

/-- Clean words stay clean under extension by whitespace-free characters. -/
theorem cleanWord_append (w τ : String) (hw : CleanWord w)
    (hτ : ∀ c ∈ τ.data, isPySpaceB c = false) : CleanWord (w ++ τ) := by
  refine ⟨?_, ?_⟩
  · rw [String.data_append]
    intro hx
    exact hw.1 (List.append_eq_nil.mp hx).1
  · rw [String.data_append]
    intro c hc
    rcases List.mem_append.mp hc with h1 | h2
    · exact hw.2 c h1
    · exact hτ c h2

/-- Extending the final pending word by whitespace-free characters never
shrinks the number of wrapped lines, for widths monotone under appending. -/
theorem wrapWordsAux_extend_last (width : String → Int) (maxW : Int)
    (hwidth : ∀ a b : String, width a ≤ width (a ++ b)) (w τ : String)
    (hwclean : CleanWord w) (hτ : ∀ c ∈ τ.data, isPySpaceB c = false) :
    ∀ (pre cur : List String), (∀ x ∈ pre, CleanWord x) → (∀ x ∈ cur, CleanWord x) →
      (wrapWordsAux width maxW (pre ++ [w]) cur).length ≤
        (wrapWordsAux width maxW (pre ++ [w ++ τ]) cur).length
  | [], cur, _, hcur => by
    rw [List.nil_append, List.nil_append]
    have hclean1 : ∀ x ∈ cur ++ [w], CleanWord x := by
      intro x hx
      rcases List.mem_append.mp hx with h1 | h2
      · exact hcur x h1
      · rcases List.mem_singleton.mp h2 with rfl
        exact hwclean
    have hclean2 : ∀ x ∈ cur ++ [w ++ τ], CleanWord x := by
      intro x hx
      rcases List.mem_append.mp hx with h1 | h2
      · exact hcur x h1
      · rcases List.mem_singleton.mp h2 with rfl
        exact cleanWord_append w τ hwclean hτ
    have hstrip1 : pyStrip (joinSpace (cur ++ [w])) = joinSpace (cur ++ [w]) :=
      pyStrip_joinSpace_noop _ hclean1
    have hstrip2 : pyStrip (joinSpace (cur ++ [w ++ τ])) = joinSpace (cur ++ [w]) ++ τ := by
      rw [pyStrip_joinSpace_noop _ hclean2, joinSpace_extend_last]
    unfold wrapWordsAux
    dsimp only
    rw [hstrip1, hstrip2]
    by_cases h1 : width (joinSpace (cur ++ [w])) ≤ maxW
    · rw [if_pos h1]
      have e1 : (wrapWordsAux width maxW [] (cur ++ [w])).length = 1 := by
        rw [wrapWordsAux_nil_len, if_neg (by simp [listIsEmpty_true_iff])]
      by_cases h2 : width (joinSpace (cur ++ [w]) ++ τ) ≤ maxW
      · rw [if_pos h2]
        have e2 : (wrapWordsAux width maxW [] (cur ++ [w ++ τ])).length = 1 := by
          rw [wrapWordsAux_nil_len, if_neg (by simp [listIsEmpty_true_iff])]
        rw [e1, e2]
      · rw [if_neg h2, e1]
        by_cases h3 : cur.isEmpty = true
        · rw [if_pos h3]
          rw [List.length_append]
          have hp := splitOversizedAux_word_pos width maxW (w ++ τ).data
            (cleanWord_append w τ hwclean hτ).1
          omega
        · rw [if_neg h3]
          simp
    · rw [if_neg h1]
      have h2 : ¬ width (joinSpace (cur ++ [w]) ++ τ) ≤ maxW :=
        fun hc => h1 (le_trans (hwidth _ τ) hc)
      rw [if_neg h2]
      by_cases h3 : cur.isEmpty = true
      · rw [if_pos h3, if_pos h3]
        rw [List.length_append, List.length_append]
        have hmono := splitOversizedAux_append_mono width maxW w.data τ.data ""
        rw [← String.data_append] at hmono
        omega
      · rw [if_neg h3, if_neg h3]
        simp only [List.length_cons]
        rw [wrapWordsAux_nil_len, wrapWordsAux_nil_len]
        simp
  | p :: pre, cur, hpre, hcur => by
    have hpclean : CleanWord p := hpre p (List.mem_cons_self p pre)
    have hpre' : ∀ x ∈ pre, CleanWord x := fun x hx => hpre x (List.mem_cons_of_mem p hx)
    rw [List.cons_append, List.cons_append]
    unfold wrapWordsAux
    dsimp only
    by_cases h1 : width (pyStrip (joinSpace (cur ++ [p]))) ≤ maxW
    · rw [if_pos h1, if_pos h1]
      refine wrapWordsAux_extend_last width maxW hwidth w τ hwclean hτ pre (cur ++ [p])
        hpre' ?_
      intro x hx
      rcases List.mem_append.mp hx with hx1 | hx2
      · exact hcur x hx1
      · rcases List.mem_singleton.mp hx2 with rfl
        exact hpclean
    · rw [if_neg h1, if_neg h1]
      by_cases h3 : cur.isEmpty = true
      · rw [if_pos h3, if_pos h3]
        rw [List.length_append, List.length_append]
        exact Nat.add_le_add_left
          (wrapWordsAux_extend_last width maxW hwidth w τ hwclean hτ pre [] hpre'
            (by simp)) _
      · rw [if_neg h3, if_neg h3]
        simp only [List.length_cons]
        refine Nat.succ_le_succ
          (wrapWordsAux_extend_last width maxW hwidth w τ hwclean hτ pre [p] hpre' ?_)
        intro x hx
        rcases List.mem_singleton.mp hx with rfl
        exact hpclean

/-- Extending the message on the right never shrinks the number of wrapped
lines, for widths monotone under appending. -/
theorem wrap_text_count_mono (width : String → Int) (maxW : Int)
    (hwidth : ∀ a b : String, width a ≤ width (a ++ b)) (msg ext : String) :
    (wrap_text width msg maxW).length ≤ (wrap_text width (msg ++ ext) maxW).length := by
  unfold wrap_text
  by_cases hmw : maxW ≤ 0
  · rw [if_pos hmw, if_pos hmw]
    by_cases hm : (msg == "") = true
    · rw [if_pos hm]
      exact Nat.zero_le _
    · rw [if_neg hm]
      have hmne : msg ≠ "" := by
        intro h
        apply hm
        rw [h]
        rfl
      have hme : ((msg ++ ext) == "") = false := by
        apply beq_eq_false_iff_ne.mpr
        intro h
        have hd := congrArg String.data h
        rw [String.data_append, show ("" : String).data = [] from rfl] at hd
        have hmsg : msg.data = [] := (List.append_eq_nil.mp hd).1
        apply hmne
        cases msg with
        | mk l =>
          rw [show (String.mk l).data = l from rfl] at hmsg
          rw [hmsg]
      rw [hme]
      simp
  · rw [if_neg hmw, if_neg hmw]
    unfold pySplit
    have hdec := pySplitAux_append_decompose msg.data ext.data []
    rw [show msg.data ++ ext.data = (msg ++ ext).data from (String.data_append msg ext).symm]
      at hdec
    rcases hdec with ⟨extra, hf⟩ | ⟨pre, w, τ, extra, hb, hf, hτ⟩
    · rw [hf]
      exact wrapWordsAux_append_mono width maxW _ extra []
    · rw [hf, hb]
      have hwmem : w ∈ pySplitAux msg.data [] := by
        rw [hb]
        simp
      have hpremem : ∀ x ∈ pre, x ∈ pySplitAux msg.data [] := by
        intro x hx
        rw [hb]
        exact List.mem_append_left _ hx
      have hwclean : CleanWord w := pySplitAux_clean msg.data [] (by simp) w hwmem
      have hpreclean : ∀ x ∈ pre, CleanWord x := fun x hx =>
        pySplitAux_clean msg.data [] (by simp) x (hpremem x hx)
      have step1 := wrapWordsAux_extend_last width maxW hwidth w τ hwclean hτ pre []
        hpreclean (by simp)
      have step2 := wrapWordsAux_append_mono width maxW (pre ++ [w ++ τ]) extra []
      refine le_trans step1 (le_trans step2 ?_)
      rw [List.append_assoc, List.singleton_append]

/-- The wrapped total height is monotone in the line count. -/
theorem wrapped_text_total_height_mono (lh : Nat) {c1 c2 : Nat} (h : c1 ≤ c2) :
    wrapped_text_total_height lh c1 ≤ wrapped_text_total_height lh c2 := by
  unfold wrapped_text_total_height
  by_cases h1 : c1 ≤ 0
  · rw [if_pos h1]
    exact Nat.zero_le _
  · rw [if_neg h1, if_neg (by omega)]
    exact Nat.add_le_add (Nat.mul_le_mul_left lh h) (Nat.mul_le_mul_right _ (by omega))

/-- Binary-search monotonicity: a pointwise harder fitting predicate never
yields a larger chosen size, for initial bests below the interval. -/
theorem fontSearch_mono (P Q : Int → Bool) (hpq : ∀ s, P s = true → Q s = true) :
    ∀ (low high bP bQ : Int), bP ≤ bQ → bP ≤ low →
      fontSearch P low high bP ≤ fontSearch Q low high bQ
  | low, high, bP, bQ, hbb, hbl => by
    rw [fontSearch.eq_def P low high bP, fontSearch.eq_def Q low high bQ]
    by_cases hlh : low ≤ high
    · rw [dif_pos hlh, dif_pos hlh]
      dsimp only
      by_cases hP : P ((low + high) / 2) = true
      · rw [if_pos hP, if_pos (hpq _ hP)]
        exact fontSearch_mono P Q hpq ((low + high) / 2 + 1) high _ _ le_rfl (by omega)
      · rw [if_neg hP]
        by_cases hQ : Q ((low + high) / 2) = true
        · rw [if_pos hQ]
          refine le_trans (fontSearch_le_max P low ((low + high) / 2 - 1) bP) ?_
          refine le_trans (max_le (show bP ≤ (low + high) / 2 by omega)
            (show (low + high) / 2 - 1 ≤ (low + high) / 2 by omega)) ?_
          exact fontSearch_ge Q ((low + high) / 2 + 1) high ((low + high) / 2) (by omega)
        · rw [if_neg hQ]
          exact fontSearch_mono P Q hpq low ((low + high) / 2 - 1) bP bQ hbb hbl
    · rw [dif_neg hlh, dif_neg hlh]
      exact hbb
  termination_by low high _ _ _ _ => (high + 1 - low).toNat
  decreasing_by all_goals omega

/-- C8: for a fixed panel geometry and font preferences (one metrics
oracle), extending the message on the right never increases the chosen
font size, provided rendered text widths are monotone under appending
characters (true of real fonts). -/
theorem choose_fitting_font_size_antitone_in_message (m : FontMetrics) (maxW maxH : Int)
    (msg ext : String)
    (hwidth : ∀ (s : Int) (a b : String), m.width s a ≤ m.width s (a ++ b)) :
    choose_fitting_font_size m (msg ++ ext) maxW maxH ≤
      choose_fitting_font_size m msg maxW maxH := by
  unfold choose_fitting_font_size
  refine fontSearch_mono _ _ ?_ _ _ _ _ le_rfl le_rfl
  intro s hs
  unfold fitsAt at hs ⊢
  rw [decide_eq_true_iff] at hs ⊢
  refine le_trans ?_ hs
  have hcount := wrap_text_count_mono (m.width s) maxW (hwidth s) msg ext
  exact_mod_cast wrapped_text_total_height_mono (m.lineHeight s) hcount

/-- C8 witness: with width given by character count (monotone under
appending), extending the message never increases the chosen size. -/
theorem choose_fitting_font_size_antitone_in_message_witness :
    choose_fitting_font_size
      ⟨fun _ t => (t.length : Int), fun _ => 10⟩ ("hello" ++ " cruel world") 60 40 ≤
      choose_fitting_font_size ⟨fun _ t => (t.length : Int), fun _ => 10⟩ "hello" 60 40 :=
  choose_fitting_font_size_antitone_in_message
    ⟨fun _ t => (t.length : Int), fun _ => 10⟩ 60 40 "hello" " cruel world"
    (by
      intro s a b
      show (a.length : Int) ≤ ((a ++ b).length : Int)
      have : (a ++ b).length = a.length + b.length := String.length_append a b
      omega)
